import Mathlib

/-!
# Verification of the rusted-ruins script compiler front-end

Shallow embedding of `src/makepak/src/buildobj/script_parser.rs` (a nom 4
parser over `CompleteStr`).  Input is modelled as `List Char`; a parser is a
function `List Char → Option (List Char × α)` returning the unconsumed
remainder and the parsed value, `none` on failure (with `CompleteStr` there is
no `Incomplete` case).  The nom `ws!` combinator threads the separator `sp`
(which eats spaces, tabs, carriage returns and newlines, zero or more) before
every terminal of the wrapped parser and after the whole of it; the embedding
writes those `sp` occurrences out explicitly (consecutive occurrences
collapsed, `sp` being idempotent).

The expression sub-grammar, the lexical token helpers `id` and `symbol`, and
the `common` crate types (`Instruction`, `SpecialInstruction`, `Script`,
`HashMap`, `PakCompileError`) live in files of the repository that are not
part of the corpus; they are modelled from the spec, as marked on each
definition.
-/

namespace MakePak

/-- Horizontal whitespace recognized by nom's `space`: space or tab. -/
def isHorizChar (c : Char) : Bool :=
  c == ' ' || c == '\t'

/-- Whitespace eaten by nom's `ws!` separator `sp`:
space, tab, carriage return, newline. -/
def isSpChar (c : Char) : Bool :=
  c == ' ' || c == '\t' || c == '\r' || c == '\n'

/-- Modelled from the spec: the `id` tokenizer of the expression collaborator
(`expr_parser.rs`, not in the corpus).  §4.1: "consumes a token matching the
script's identifier rules ... must permit at least alphanumerics, underscore,
and hyphen". -/
def isIdChar (c : Char) : Bool :=
  c.isAlphanum || c == '_' || c == '-'

/-- Modelled from the spec: character class of the `symbol` tokenizer
(`expr_parser.rs`, not in the corpus).  §4.1: "a token used as input to
enum-like conversions ... bare word"; modelled as alphanumerics and
underscore, the class the corpus symbols (`shop_buy`, `shop_sell`) use. -/
def isSymChar (c : Char) : Bool :=
  c.isAlphanum || c == '_'

/-- nom `tag!`: match a literal token and drop it, character by
character. -/
def tag : List Char → List Char → Option (List Char)
  | [], s => some s
  | c :: t2, s =>
    match s with
    | [] => none
    | c2 :: s2 => if c2 = c then tag t2 s2 else none

/-- nom `char!`: match a single literal character. -/
def chr (c : Char) (s : List Char) : Option (List Char) :=
  match s with
  | [] => none
  | c2 :: r => if c2 = c then some r else none

/-- The separator eaten by nom's `ws!`: zero or more whitespace characters
(including line breaks).  Total, so represented as a plain function. -/
def sp (s : List Char) : List Char :=
  s.dropWhile isSpChar

/-- nom `space`: one or more spaces/tabs; fails on none. -/
def space (s : List Char) : Option (List Char) :=
  if (s.takeWhile isHorizChar).isEmpty then none
  else some (s.dropWhile isHorizChar)

/-- nom `line_ending`: a single `"\n"` or `"\r\n"`. -/
def line_ending (s : List Char) : Option (List Char) :=
  match s with
  | '\n' :: r => some r
  | '\r' :: '\n' :: r => some r
  | _ => none

/-- `end_line` (script_parser.rs lines 10-16): `opt!(space)` then
`line_ending`. -/
def end_line (s : List Char) : Option (List Char) :=
  match space s with
  | some r => line_ending r
  | none => line_ending s

/-- Modelled from the spec: the `id` tokenizer of the expression collaborator
(not in the corpus): one or more identifier characters, maximal munch. -/
def ident (s : List Char) : Option (List Char × String) :=
  if (s.takeWhile isIdChar).isEmpty then none
  else some (s.dropWhile isIdChar, String.mk (s.takeWhile isIdChar))

/-- Modelled from the spec: the `symbol` tokenizer of the expression
collaborator (not in the corpus): one or more word characters, maximal
munch. -/
def symbol (s : List Char) : Option (List Char × String) :=
  if (s.takeWhile isSymChar).isEmpty then none
  else some (s.dropWhile isSymChar, String.mk (s.takeWhile isSymChar))

/-- Modelled from the spec: `Expr`, the typed expression value produced by the
expression collaborator (§3: "opaque to this core; produced and owned entirely
by the expression collaborator").  The repository's test corpus shows
`has_item(key)` producing `Expr::HasItem("key")`; §1 mentions variable
references as another expression form. -/
inductive Expr where
  | HasItem : String → Expr
  | Var : String → Expr
deriving DecidableEq

/-- Modelled from the spec: the expression grammar (§4.2): "consumes a
syntactically valid expression starting at the current position and yields a
typed `Expr`; on malformed input it fails".  Only its interface matters to the
instruction grammar, which never inspects expression internals. -/
def expr (s : List Char) : Option (List Char × Expr) :=
  match tag ("has_item(".data) s with
  | some r1 =>
    match ident (sp r1) with
    | some (r2, name) =>
      match chr ')' (sp r2) with
      | some r3 => some (r3, Expr.HasItem name)
      | none => none
    | none => none
  | none =>
    match ident s with
    | some (r, name) => some (r, Expr.Var name)
    | none => none

/-- Modelled from the spec: `common::script::SpecialInstruction` (the `common`
crate's script module is not in the corpus).  §3: "a fixed enumerated set of
built-in behaviors (e.g., open-shop-buy, open-shop-sell)"; the corpus
exercises `shop_buy` and `shop_sell`. -/
inductive SpecialInstruction where
  | ShopBuy
  | ShopSell
deriving DecidableEq

/-- Modelled from the spec: the `FromStr` conversion for
`SpecialInstruction` (§9: "a total partial function (string → Option<Kind>)
with an explicit closed table"). -/
def specialFromStr (s : String) : Option SpecialInstruction :=
  if s = "shop_buy" then some SpecialInstruction.ShopBuy
  else if s = "shop_sell" then some SpecialInstruction.ShopSell
  else none

/-- Modelled from the spec: `common::script::Instruction` (§3), the closed
tagged union of instruction forms. -/
inductive Instruction where
  | Jump : String → Instruction
  | JumpIf : String → Expr → Instruction
  | Talk : String → List (String × String) → Instruction
  | GSet : String → Expr → Instruction
  | ReceiveMoney : Expr → Instruction
  | RemoveItem : String → Instruction
  | Special : SpecialInstruction → Instruction
deriving DecidableEq

/-- `section_start` (script_parser.rs lines 36-44): `"---"`, one or more
spaces, an identifier, `end_line`. -/
def section_start (s : List Char) : Option (List Char × String) :=
  match tag ("---".data) s with
  | none => none
  | some r1 =>
    match space r1 with
    | none => none
    | some r2 =>
      match ident r2 with
      | none => none
      | some (r3, name) =>
        match end_line r3 with
        | none => none
        | some r4 => some (r4, name)

/-- `jump_instruction` (lines 52-59): `ws!(tag!("jump"))`, then
`delimited!(tag!("("), ws!(id), tag!(")"))`, then `end_line`. -/
def jump_instruction (s : List Char) : Option (List Char × Instruction) :=
  match tag ("jump".data) (sp s) with
  | none => none
  | some r1 =>
    match tag ("(".data) (sp r1) with
    | none => none
    | some r2 =>
      match ident (sp r2) with
      | none => none
      | some (r3, name) =>
        match tag (")".data) (sp r3) with
        | none => none
        | some r4 =>
          match end_line r4 with
          | none => none
          | some r5 => some (r5, Instruction.Jump name)

/-- `jump_if_instruction` (lines 61-72): `ws!(tag!("jump_if"))`, `'('`,
`ws!(id)`, `','`, `ws!(expr)`, `')'`, `end_line`. -/
def jump_if_instruction (s : List Char) : Option (List Char × Instruction) :=
  match tag ("jump_if".data) (sp s) with
  | none => none
  | some r1 =>
    match chr '(' (sp r1) with
    | none => none
    | some r2 =>
      match ident (sp r2) with
      | none => none
      | some (r3, name) =>
        match chr ',' (sp r3) with
        | none => none
        | some r4 =>
          match expr (sp r4) with
          | none => none
          | some (r5, e) =>
            match chr ')' (sp r5) with
            | none => none
            | some r6 =>
              match end_line r6 with
              | none => none
              | some r7 => some (r7, Instruction.JumpIf name e)

/-- `special_instruction` (lines 86-93): `ws!(tag!("special"))`, then
`map_res!(delimited!(tag!("("), ws!(symbol), tag!(")")), FromStr::from_str)`,
then `end_line`. -/
def special_instruction (s : List Char) : Option (List Char × Instruction) :=
  match tag ("special".data) (sp s) with
  | none => none
  | some r1 =>
    match tag ("(".data) (sp r1) with
    | none => none
    | some r2 =>
      match symbol (sp r2) with
      | none => none
      | some (r3, sym) =>
        match tag (")".data) (sp r3) with
        | none => none
        | some r4 =>
          match specialFromStr sym with
          | none => none
          | some k =>
            match end_line r4 with
            | none => none
            | some r5 => some (r5, Instruction.Special k)

/-- `talk_instruction` (lines 105-112): `ws!(tag!("talk"))`, then
`delimited!(char!('('), ws!(id), char!(')'))`, then `end_line`; produces
`Talk` with an empty choice list. -/
def talk_instruction (s : List Char) : Option (List Char × Instruction) :=
  match tag ("talk".data) (sp s) with
  | none => none
  | some r1 =>
    match chr '(' (sp r1) with
    | none => none
    | some r2 =>
      match ident (sp r2) with
      | none => none
      | some (r3, text_id) =>
        match chr ')' (sp r3) with
        | none => none
        | some r4 =>
          match end_line r4 with
          | none => none
          | some r5 => some (r5, Instruction.Talk text_id [])

/-- One element of the choice array (lines 119-120 inside `array!`):
`ws!`-threaded `delimited!(char!('('),
separated_pair!(ws!(id), char!(','), ws!(id)), char!(')'))`, with the
trailing separator of `ws!`. -/
def choice_pair (s : List Char) : Option (List Char × (String × String)) :=
  match chr '(' (sp s) with
  | none => none
  | some r1 =>
    match ident (sp r1) with
    | none => none
    | some (r2, a) =>
      match chr ',' (sp r2) with
      | none => none
      | some r3 =>
        match ident (sp r3) with
        | none => none
        | some (r4, b) =>
          match chr ')' (sp r4) with
          | none => none
          | some r5 => some (sp r5, (a, b))

/-- The `ws!`-threaded list separator of `array!`: `sp` then `','`. -/
def comma_sep (s : List Char) : Option (List Char) :=
  chr ',' (sp s)

/-- Loop of nom `separated_list!` after the first element: repeatedly a
separator then an element; stops (without consuming the separator) when either
fails; zero-length progress of separator or element is an error.  The fuel
argument bounds the iteration count; it is initialized to more than the input
length, which the progress guards make sufficient. -/
def sep_list_loop :
    Nat → List Char → List (String × String) →
    Option (List Char × List (String × String))
  | 0, _, _ => none
  | Nat.succ fuel, s, acc =>
    match comma_sep s with
    | none => some (s, acc)
    | some s2 =>
      if s2.length = s.length then none
      else
        match choice_pair s2 with
        | none => some (s, acc)
        | some (s3, c) =>
          if s3.length = s2.length then none
          else sep_list_loop fuel s3 (acc ++ [c])

/-- nom `separated_list!(char!(','), ws!(choice))` as used in `array!`
(lines 23-34): zero or more elements; an empty list when the first element
fails; a first element succeeding without consuming input is an error. -/
def separated_list_choice (s : List Char) :
    Option (List Char × List (String × String)) :=
  match choice_pair s with
  | none => some (s, [])
  | some (s1, c) =>
    if s1.length = s.length then none
    else sep_list_loop (s1.length + 1) s1 [c]

/-- `array!` (lines 23-34): `ws!(delimited!(char!('['),
separated_list!(char!(','), ws!(item)), char!(']')))`. -/
def array_choices (s : List Char) :
    Option (List Char × List (String × String)) :=
  match chr '[' (sp s) with
  | none => none
  | some r1 =>
    match separated_list_choice r1 with
    | none => none
    | some (r2, cs) =>
      match chr ']' (sp r2) with
      | none => none
      | some r3 => some (sp r3, cs)

/-- `talk_instruction_with_choices` (lines 114-126): `ws!(tag!("talk"))`,
`'('`, `ws!(id)`, `','`, the choice `array!`, `')'`, `end_line`. -/
def talk_instruction_with_choices (s : List Char) :
    Option (List Char × Instruction) :=
  match tag ("talk".data) (sp s) with
  | none => none
  | some r1 =>
    match chr '(' (sp r1) with
    | none => none
    | some r2 =>
      match ident (sp r2) with
      | none => none
      | some (r3, text_id) =>
        match chr ',' (sp r3) with
        | none => none
        | some r4 =>
          match array_choices r4 with
          | none => none
          | some (r5, choices) =>
            match chr ')' r5 with
            | none => none
            | some r6 =>
              match end_line r6 with
              | none => none
              | some r7 => some (r7, Instruction.Talk text_id choices)

/-- `gset_instruction` (lines 128-139): `ws!(tag!("gset"))`, `'('`, `ws!(id)`,
`','`, `ws!(expr)`, `')'`, `end_line`. -/
def gset_instruction (s : List Char) : Option (List Char × Instruction) :=
  match tag ("gset".data) (sp s) with
  | none => none
  | some r1 =>
    match chr '(' (sp r1) with
    | none => none
    | some r2 =>
      match ident (sp r2) with
      | none => none
      | some (r3, var_name) =>
        match chr ',' (sp r3) with
        | none => none
        | some r4 =>
          match expr (sp r4) with
          | none => none
          | some (r5, value) =>
            match chr ')' (sp r5) with
            | none => none
            | some r6 =>
              match end_line r6 with
              | none => none
              | some r7 => some (r7, Instruction.GSet var_name value)

/-- `receive_money_instruction` (lines 141-148): `ws!(tag!("receive_money"))`,
`delimited!(char!('('), ws!(expr), char!(')'))`, `end_line`. -/
def receive_money_instruction (s : List Char) :
    Option (List Char × Instruction) :=
  match tag ("receive_money".data) (sp s) with
  | none => none
  | some r1 =>
    match chr '(' (sp r1) with
    | none => none
    | some r2 =>
      match expr (sp r2) with
      | none => none
      | some (r3, e) =>
        match chr ')' (sp r3) with
        | none => none
        | some r4 =>
          match end_line r4 with
          | none => none
          | some r5 => some (r5, Instruction.ReceiveMoney e)

/-- `remove_item_instruction` (lines 150-157): `ws!(tag!("remove_item"))`,
`delimited!(char!('('), ws!(id), char!(')'))`, `end_line`. -/
def remove_item_instruction (s : List Char) :
    Option (List Char × Instruction) :=
  match tag ("remove_item".data) (sp s) with
  | none => none
  | some r1 =>
    match chr '(' (sp r1) with
    | none => none
    | some r2 =>
      match ident (sp r2) with
      | none => none
      | some (r3, item_id) =>
        match chr ')' (sp r3) with
        | none => none
        | some r4 =>
          match end_line r4 with
          | none => none
          | some r5 => some (r5, Instruction.RemoveItem item_id)

/-- First-success choice over a list of parsers, the semantics of nom's
`alt!`. -/
def altList (l : List (List Char → Option (List Char × Instruction)))
    (s : List Char) : Option (List Char × Instruction) :=
  match l with
  | [] => none
  | p :: ps =>
    match p s with
    | some r => some r
    | none => altList ps s

/-- The alternatives of `instruction` (lines 169-180), in source order. -/
def instrAlts : List (List Char → Option (List Char × Instruction)) :=
  [jump_instruction, jump_if_instruction, talk_instruction_with_choices,
   talk_instruction, gset_instruction, receive_money_instruction,
   remove_item_instruction, special_instruction]

/-- `instruction` (lines 169-180): `alt!` over the eight forms in source
order. -/
def instruction (s : List Char) : Option (List Char × Instruction) :=
  altList instrAlts s

/-- Loop of nom `many0!(instruction)`: stops on empty input or on parser
failure; success without consumption is an error.  Fuel as in
`sep_list_loop`. -/
def many0_instr_loop :
    Nat → List Char → List Instruction →
    Option (List Char × List Instruction)
  | 0, _, _ => none
  | Nat.succ fuel, s, acc =>
    if s.isEmpty then some (s, acc)
    else
      match instruction s with
      | none => some (s, acc)
      | some (s2, i) =>
        if s2.length = s.length then none
        else many0_instr_loop fuel s2 (acc ++ [i])

/-- nom `many0!(instruction)` as used in `section` (line 185). -/
def many0_instruction (s : List Char) :
    Option (List Char × List Instruction) :=
  many0_instr_loop (s.length + 1) s []

/-- `section` (lines 182-188): `section_start` then `many0!(instruction)`. -/
def section_p (s : List Char) :
    Option (List Char × (String × List Instruction)) :=
  match section_start s with
  | none => none
  | some (r, name) =>
    match many0_instruction r with
    | none => none
    | some (r2, instrs) => some (r2, (name, instrs))

/-- Modelled from the spec: `common::hashmap::HashMap` (not in the corpus),
of which the assembler uses only `insert` and the `Script` only lookup;
association-list model where `insert` replaces the value of an existing key
in place and appends a new key at the end. -/
def hmInsert (k : String) (v : List Instruction)
    (m : List (String × List Instruction)) :
    List (String × List Instruction) :=
  match m with
  | [] => [(k, v)]
  | (k2, v2) :: rest =>
    if k2 = k then (k, v) :: rest else (k2, v2) :: hmInsert k v rest

/-- Modelled from the spec: lookup in the `HashMap` model. -/
def hmLookup (m : List (String × List Instruction)) (k : String) :
    Option (List Instruction) :=
  match m with
  | [] => none
  | (k2, v) :: rest => if k2 = k then some v else hmLookup rest k

/-- Loop of nom `fold_many0!(section, HashMap::default(), insert)`
(lines 190-198): stops on empty input or on `section` failing; a `section`
succeeding without consuming input is an error.  Fuel as in
`sep_list_loop`. -/
def fold_sections_loop :
    Nat → List Char → List (String × List Instruction) →
    Option (List Char × List (String × List Instruction))
  | 0, _, _ => none
  | Nat.succ fuel, s, m =>
    if s.isEmpty then some (s, m)
    else
      match section_p s with
      | none => some (s, m)
      | some (s2, sec) =>
        if s2.length = s.length then none
        else fold_sections_loop fuel s2 (hmInsert sec.1 sec.2 m)

/-- The fold of `sections` (lines 190-198) before the `exact!` wrapper. -/
def fold_sections (s : List Char) :
    Option (List Char × List (String × List Instruction)) :=
  fold_sections_loop (s.length + 1) s []

/-- `sections` (lines 190-198): `exact!(fold_many0!(section, ...))` — the fold
then an end-of-input check; unconsumed input is a failure. -/
def sections (s : List Char) :
    Option (List (String × List Instruction)) :=
  match fold_sections s with
  | none => none
  | some (r, m) => if r.isEmpty then some m else none

/-- Modelled from the spec: `common::script::Script` (not in the corpus).
§3: "owns a mapping from section name (string, unique) to an ordered sequence
of `Instruction` ... Exposes lookup of a section's instruction list by
name". -/
structure Script where
  map : List (String × List Instruction)
deriving DecidableEq

/-- Modelled from the spec: `Script::from_map` wraps the assembled mapping
(§4.5: "Wrap the mapping in a `Script` value ... construction is pure data
reshaping"). -/
def Script.from_map (m : List (String × List Instruction)) : Script :=
  ⟨m⟩

/-- Modelled from the spec: `Script` lookup (§6: "lookup(section_name) ->
Option<ordered list of Instruction>"). -/
def Script.lookup (sc : Script) (name : String) : Option (List Instruction) :=
  hmLookup sc.map name

/-- Modelled from the spec: `PakCompileError` (`makepak`'s error module is
not in the corpus).  §7: a single error kind, `ScriptParseError`, "carries an
opaque description string". -/
inductive PakCompileError where
  | ScriptParseError : (description : String) → PakCompileError
deriving DecidableEq

/-- Modelled from the spec: the opaque description string produced from the
underlying nom failure (§4.6); its content is unconstrained. -/
def parseErrorDescription : String :=
  "script parse failure"

instance : DecidableEq (Except PakCompileError Script) := fun x y =>
  match x, y with
  | Except.ok a, Except.ok b =>
    if h : a = b then isTrue (by rw [h])
    else isFalse (fun hc => h (by cases hc; rfl))
  | Except.error a, Except.error b =>
    if h : a = b then isTrue (by rw [h])
    else isFalse (fun hc => h (by cases hc; rfl))
  | Except.ok _, Except.error _ => isFalse (fun hc => Except.noConfusion hc)
  | Except.error _, Except.ok _ => isFalse (fun hc => Except.noConfusion hc)

/-- `parse` (lines 200-211): run `sections` on the whole input; wrap success
in `Script::from_map`, failure in `PakCompileError::ScriptParseError`. -/
def parse (input : String) : Except PakCompileError Script :=
  match sections input.data with
  | some m => Except.ok (Script.from_map m)
  | none =>
    Except.error (PakCompileError.ScriptParseError parseErrorDescription)

/-- `InstrSeq s r l`: repeatedly applying `instruction` starting from input
`s` parses exactly the instructions `l`, in order, leaving remainder `r`.
This is the order-preserving sequential reading that `many0!(instruction)`
performs inside `section`. -/
inductive InstrSeq : List Char → List Char → List Instruction → Prop where
  | nil (s : List Char) : InstrSeq s s []
  | cons (s s2 r : List Char) (i : Instruction) (l : List Instruction) :
      instruction s = some (s2, i) → InstrSeq s2 r l → InstrSeq s r (i :: l)

/-- Two parsers are disjoint when they never both succeed on the same
input. -/
def Disj (p q : List Char → Option (List Char × Instruction)) : Prop :=
  ∀ s, p s = none ∨ q s = none

/-- The talk-with-choices alternative occurs strictly before the plain talk
alternative in a list of alternatives. -/
def ChoicesBeforeTalk
    (l : List (List Char → Option (List Char × Instruction))) : Prop :=
  ∃ (i j : Nat) (hi : i < l.length) (hj : j < l.length),
    i < j ∧ l.get ⟨i, hi⟩ = talk_instruction_with_choices ∧
      l.get ⟨j, hj⟩ = talk_instruction

/-- The instruction alternatives with `jump` and `jump_if` transposed: a
permutation of `instrAlts` that keeps talk-with-choices before plain talk. -/
def instrAltsSwapped : List (List Char → Option (List Char × Instruction)) :=
  [jump_if_instruction, jump_instruction, talk_instruction_with_choices,
   talk_instruction, gset_instruction, receive_money_instruction,
   remove_item_instruction, special_instruction]

/-- Continuation of `talk_instruction_with_choices` after the comma following
the text id has been consumed: the choice `array!`, `')'`, `end_line`. -/
def talkChoicesTail (text_id : String) (s : List Char) :
    Option (List Char × Instruction) :=
  match array_choices s with
  | none => none
  | some (r5, choices) =>
    match chr ')' r5 with
    | none => none
    | some r6 =>
      match end_line r6 with
      | none => none
      | some r7 => some (r7, Instruction.Talk text_id choices)

/-- Continuation of `talk_instruction_with_choices` after the opening
parenthesis has been consumed: text id, comma, choice array, `')'`,
`end_line`. -/
def talkChoicesAfterParen (s : List Char) :
    Option (List Char × Instruction) :=
  match ident (sp s) with
  | none => none
  | some (r3, text_id) =>
    match chr ',' (sp r3) with
    | none => none
    | some r4 => talkChoicesTail text_id r4

/-- Continuation of `special_instruction` after the opening parenthesis has
been consumed: symbol, `')'`, symbol-to-enum conversion, `end_line`. -/
def specialAfterParen (s : List Char) : Option (List Char × Instruction) :=
  match symbol (sp s) with
  | none => none
  | some (r3, sym) =>
    match tag (")".data) (sp r3) with
    | none => none
    | some r4 =>
      match specialFromStr sym with
      | none => none
      | some k =>
        match end_line r4 with
        | none => none
        | some r5 => some (r5, Instruction.Special k)

/-- The corpus fixture source of the repository's `parse_test`
(script_parser.rs lines 214-241). -/
def fixtureSource : String :=
  "--- test_section0\ntalk(textid0)\nspecial(shop_buy)\njump(test_section1)\n--- test_section1\ntalk(textid1,\n     [(aaa, bbb), (ccc, ddd)])\n"

/-- The instruction list the fixture expects for `test_section0`. -/
def fixtureSec0 : List Instruction :=
  [Instruction.Talk "textid0" [],
   Instruction.Special SpecialInstruction.ShopBuy,
   Instruction.Jump "test_section1"]

/-- The instruction list the fixture expects for `test_section1`. -/
def fixtureSec1 : List Instruction :=
  [Instruction.Talk "textid1" [("aaa", "bbb"), ("ccc", "ddd")]]

/-- The `Script` the fixture is expected to compile to. -/
def fixtureScript : Script :=
  Script.from_map [("test_section0", fixtureSec0), ("test_section1", fixtureSec1)]

/-! ## Basic lemmas about the lexical primitives -/

set_option maxRecDepth 10000

theorem sp_cons_of_false {c : Char} (h : isSpChar c = false) (l : List Char) :
    sp (c :: l) = c :: l := by
  simp [sp, List.dropWhile_cons, h]

theorem sp_append_ws {w : List Char} (hw : ∀ c ∈ w, isSpChar c = true)
    (l : List Char) : sp (w ++ l) = sp l := by
  induction w with
  | nil => rfl
  | cons a t ih =>
    have ha : isSpChar a = true := hw a (List.mem_cons_self a t)
    have ih2 := ih (fun c hc => hw c (List.mem_cons_of_mem a hc))
    simp only [List.cons_append, sp, List.dropWhile_cons, ha] at ih2 ⊢
    exact ih2

theorem takeWhile_append_stop {p : Char → Bool} {w : List Char}
    (hw : ∀ c ∈ w, p c = true) {c0 : Char} (hc : p c0 = false)
    (r : List Char) :
    (w ++ c0 :: r).takeWhile p = w ∧ (w ++ c0 :: r).dropWhile p = c0 :: r := by
  induction w with
  | nil => simp [List.takeWhile_cons, List.dropWhile_cons, hc]
  | cons a t ih =>
    have ha : p a = true := hw a (List.mem_cons_self a t)
    have ih2 := ih (fun c hcm => hw c (List.mem_cons_of_mem a hcm))
    simp only [List.cons_append, List.takeWhile_cons, List.dropWhile_cons, ha,
      ih2.1, ih2.2]
    exact ⟨rfl, rfl⟩

theorem tag_some_append : ∀ {t s r : List Char}, tag t s = some r → s = t ++ r
  | [], s, r, h => by
    simp only [tag] at h
    simp [← Option.some_inj.mp h]
  | c :: t2, s, r, h => by
    match s with
    | [] => simp [tag] at h
    | c2 :: s2 =>
      simp only [tag] at h
      by_cases hc : c2 = c
      · rw [if_pos hc] at h
        have := tag_some_append h
        simp [hc, this]
      · rw [if_neg hc] at h
        cases h

theorem chr_some {c : Char} {s r : List Char} (h : chr c s = some r) :
    s = c :: r := by
  match s with
  | [] => simp [chr] at h
  | c2 :: s2 =>
    simp only [chr] at h
    by_cases hc : c2 = c
    · rw [if_pos hc] at h
      simp [hc, Option.some_inj.mp h]
    · rw [if_neg hc] at h
      cases h

theorem prefix_comparable :
    ∀ {l3 l1 l2 : List Char}, l1 <+: l3 → l2 <+: l3 →
      l1 <+: l2 ∨ l2 <+: l1
  | l3, [], l2, _, _ => Or.inl ⟨l2, rfl⟩
  | l3, l1, [], _, _ => Or.inr ⟨l1, rfl⟩
  | a :: l3, b :: t1, c :: t2, h1, h2 => by
    obtain ⟨u1, hu1⟩ := h1
    obtain ⟨u2, hu2⟩ := h2
    simp only [List.cons_append, List.cons.injEq] at hu1 hu2
    rcases prefix_comparable ⟨u1, hu1.2⟩ ⟨u2, hu2.2⟩ with h | h
    · obtain ⟨v, hv⟩ := h
      exact Or.inl ⟨v, by simp [hu1.1, hu2.1.symm, hv]⟩
    · obtain ⟨v, hv⟩ := h
      exact Or.inr ⟨v, by simp [hu2.1, hu1.1.symm, hv]⟩

/-! ## Suffix lemmas: every parser returns a suffix of its input -/

theorem dropWhile_suffix (p : Char → Bool) (l : List Char) :
    l.dropWhile p <:+ l :=
  ⟨l.takeWhile p, List.takeWhile_append_dropWhile p l⟩

theorem sp_suffix (s : List Char) : sp s <:+ s :=
  dropWhile_suffix isSpChar s

theorem suffix_mem {l1 l2 : List Char} {a : Char} (h : l1 <:+ l2)
    (ha : a ∈ l1) : a ∈ l2 := by
  obtain ⟨t, rfl⟩ := h
  exact List.mem_append_right t ha

theorem tag_suffix {t s r : List Char} (h : tag t s = some r) : r <:+ s := by
  rw [tag_some_append h]
  exact ⟨t, rfl⟩

theorem chr_suffix {c : Char} {s r : List Char} (h : chr c s = some r) :
    r <:+ s := by
  rw [chr_some h]
  exact ⟨[c], rfl⟩

theorem space_suffix {s r : List Char} (h : space s = some r) : r <:+ s := by
  simp only [space] at h
  split at h
  · cases h
  · exact Option.some_inj.mp h ▸ dropWhile_suffix isHorizChar s

theorem ident_suffix {s r : List Char} {x : String}
    (h : ident s = some (r, x)) : r <:+ s := by
  simp only [ident] at h
  split at h
  · cases h
  · rw [show r = s.dropWhile isIdChar from congrArg Prod.fst
      (Option.some_inj.mp h).symm]
    exact dropWhile_suffix isIdChar s

theorem symbol_suffix {s r : List Char} {x : String}
    (h : symbol s = some (r, x)) : r <:+ s := by
  simp only [symbol] at h
  split at h
  · cases h
  · rw [show r = s.dropWhile isSymChar from congrArg Prod.fst
      (Option.some_inj.mp h).symm]
    exact dropWhile_suffix isSymChar s

theorem line_ending_suffix {s r : List Char} (h : line_ending s = some r) :
    r <:+ s := by
  unfold line_ending at h
  split at h
  · exact Option.some_inj.mp h ▸ ⟨['\n'], rfl⟩
  · exact Option.some_inj.mp h ▸ ⟨['\r', '\n'], rfl⟩
  · cases h

theorem end_line_suffix {s r : List Char} (h : end_line s = some r) :
    r <:+ s := by
  unfold end_line at h
  cases hsp : space s with
  | none => rw [hsp] at h; exact line_ending_suffix h
  | some r1 =>
    rw [hsp] at h
    exact (line_ending_suffix h).trans (space_suffix hsp)

theorem expr_suffix {s r : List Char} {e : Expr} (h : expr s = some (r, e)) :
    r <:+ s := by
  unfold expr at h
  cases h1 : tag ("has_item(".data) s with
  | some r1 =>
    rw [h1] at h
    dsimp only at h
    cases h2 : ident (sp r1) with
    | none => rw [h2] at h; cases h
    | some p2 =>
      obtain ⟨r2, name⟩ := p2
      rw [h2] at h
      dsimp only at h
      cases h3 : chr ')' (sp r2) with
      | none => rw [h3] at h; cases h
      | some r3 =>
        rw [h3] at h
        dsimp only at h
        have : r = r3 := congrArg Prod.fst (Option.some_inj.mp h).symm
        subst this
        exact (((chr_suffix h3).trans (sp_suffix r2)).trans
          ((ident_suffix h2).trans (sp_suffix r1))).trans (tag_suffix h1)
  | none =>
    rw [h1] at h
    dsimp only at h
    cases h2 : ident s with
    | none => rw [h2] at h; cases h
    | some p2 =>
      obtain ⟨r2, name⟩ := p2
      rw [h2] at h
      dsimp only at h
      have : r = r2 := congrArg Prod.fst (Option.some_inj.mp h).symm
      subst this
      exact ident_suffix h2

theorem line_ending_mem {s r : List Char} (h : line_ending s = some r) :
    '\n' ∈ s := by
  unfold line_ending at h
  split at h
  · exact List.mem_cons_self ..
  · exact List.mem_cons_of_mem _ (List.mem_cons_self ..)
  · cases h

theorem end_line_mem {s r : List Char} (h : end_line s = some r) :
    '\n' ∈ s := by
  unfold end_line at h
  cases hsp : space s with
  | none => rw [hsp] at h; exact line_ending_mem h
  | some r1 =>
    rw [hsp] at h
    exact suffix_mem (space_suffix hsp) (line_ending_mem h)

theorem comma_sep_suffix {s r : List Char} (h : comma_sep s = some r) :
    r <:+ s :=
  (chr_suffix h).trans (sp_suffix s)

theorem choice_pair_suffix {s r : List Char} {c : String × String}
    (h : choice_pair s = some (r, c)) : r <:+ s := by
  unfold choice_pair at h
  cases h1 : chr '(' (sp s) with
  | none => rw [h1] at h; cases h
  | some r1 =>
    rw [h1] at h; dsimp only at h
    cases h2 : ident (sp r1) with
    | none => rw [h2] at h; cases h
    | some p2 =>
      obtain ⟨r2, a⟩ := p2
      rw [h2] at h; dsimp only at h
      cases h3 : chr ',' (sp r2) with
      | none => rw [h3] at h; cases h
      | some r3 =>
        rw [h3] at h; dsimp only at h
        cases h4 : ident (sp r3) with
        | none => rw [h4] at h; cases h
        | some p4 =>
          obtain ⟨r4, b⟩ := p4
          rw [h4] at h; dsimp only at h
          cases h5 : chr ')' (sp r4) with
          | none => rw [h5] at h; cases h
          | some r5 =>
            rw [h5] at h; dsimp only at h
            have : r = sp r5 := congrArg Prod.fst (Option.some_inj.mp h).symm
            subst this
            exact ((((sp_suffix r5).trans
              ((chr_suffix h5).trans (sp_suffix r4))).trans
                ((ident_suffix h4).trans (sp_suffix r3))).trans
                  (((chr_suffix h3).trans (sp_suffix r2)).trans
                    ((ident_suffix h2).trans (sp_suffix r1)))).trans
                      ((chr_suffix h1).trans (sp_suffix s))

theorem sep_list_loop_suffix :
    ∀ {fuel : Nat} {s acc r out},
      sep_list_loop fuel s acc = some (r, out) → r <:+ s := by
  intro fuel
  induction fuel with
  | zero => intro s acc r out h; simp [sep_list_loop] at h
  | succ n ih =>
    intro s acc r out h
    rw [sep_list_loop] at h
    cases h1 : comma_sep s with
    | none =>
      rw [h1] at h; dsimp only at h
      have : r = s := congrArg Prod.fst (Option.some_inj.mp h).symm
      rw [this]
    | some s2 =>
      rw [h1] at h; dsimp only at h
      by_cases hl : s2.length = s.length
      · rw [if_pos hl] at h; cases h
      · rw [if_neg hl] at h
        cases h2 : choice_pair s2 with
        | none =>
          rw [h2] at h; dsimp only at h
          have : r = s := congrArg Prod.fst (Option.some_inj.mp h).symm
          rw [this]
        | some p =>
          obtain ⟨s3, c⟩ := p
          rw [h2] at h; dsimp only at h
          by_cases hl2 : s3.length = s2.length
          · rw [if_pos hl2] at h; cases h
          · rw [if_neg hl2] at h
            exact ((ih h).trans (choice_pair_suffix h2)).trans
              (comma_sep_suffix h1)

theorem separated_list_choice_suffix {s r : List Char}
    {out : List (String × String)}
    (h : separated_list_choice s = some (r, out)) : r <:+ s := by
  unfold separated_list_choice at h
  cases h1 : choice_pair s with
  | none =>
    rw [h1] at h; dsimp only at h
    have : r = s := congrArg Prod.fst (Option.some_inj.mp h).symm
    rw [this]
  | some p =>
    obtain ⟨s1, c⟩ := p
    rw [h1] at h; dsimp only at h
    by_cases hl : s1.length = s.length
    · rw [if_pos hl] at h; cases h
    · rw [if_neg hl] at h
      exact (sep_list_loop_suffix h).trans (choice_pair_suffix h1)

theorem array_choices_suffix {s r : List Char} {out : List (String × String)}
    (h : array_choices s = some (r, out)) : r <:+ s := by
  unfold array_choices at h
  cases h1 : chr '[' (sp s) with
  | none => rw [h1] at h; cases h
  | some r1 =>
    rw [h1] at h; dsimp only at h
    cases h2 : separated_list_choice r1 with
    | none => rw [h2] at h; cases h
    | some p =>
      obtain ⟨r2, cs⟩ := p
      rw [h2] at h; dsimp only at h
      cases h3 : chr ']' (sp r2) with
      | none => rw [h3] at h; cases h
      | some r3 =>
        rw [h3] at h; dsimp only at h
        have : r = sp r3 := congrArg Prod.fst (Option.some_inj.mp h).symm
        subst this
        exact (((sp_suffix r3).trans
          ((chr_suffix h3).trans (sp_suffix r2))).trans
            (separated_list_choice_suffix h2)).trans
              ((chr_suffix h1).trans (sp_suffix s))

/-! ## Keyword lemmas: each instruction form succeeds only when its leading
keyword occurs (after whitespace) at the start of the input -/

theorem jump_kw {s : List Char} {x : List Char × Instruction}
    (h : jump_instruction s = some x) : ("jump".data) <+: sp s := by
  unfold jump_instruction at h
  cases h1 : tag ("jump".data) (sp s) with
  | none => rw [h1] at h; cases h
  | some r1 => exact ⟨r1, (tag_some_append h1).symm⟩

theorem jump_if_kw {s : List Char} {x : List Char × Instruction}
    (h : jump_if_instruction s = some x) : ("jump_if".data) <+: sp s := by
  unfold jump_if_instruction at h
  cases h1 : tag ("jump_if".data) (sp s) with
  | none => rw [h1] at h; cases h
  | some r1 => exact ⟨r1, (tag_some_append h1).symm⟩

theorem talk_choices_kw {s : List Char} {x : List Char × Instruction}
    (h : talk_instruction_with_choices s = some x) : ("talk".data) <+: sp s := by
  unfold talk_instruction_with_choices at h
  cases h1 : tag ("talk".data) (sp s) with
  | none => rw [h1] at h; cases h
  | some r1 => exact ⟨r1, (tag_some_append h1).symm⟩

theorem talk_kw {s : List Char} {x : List Char × Instruction}
    (h : talk_instruction s = some x) : ("talk".data) <+: sp s := by
  unfold talk_instruction at h
  cases h1 : tag ("talk".data) (sp s) with
  | none => rw [h1] at h; cases h
  | some r1 => exact ⟨r1, (tag_some_append h1).symm⟩

theorem gset_kw {s : List Char} {x : List Char × Instruction}
    (h : gset_instruction s = some x) : ("gset".data) <+: sp s := by
  unfold gset_instruction at h
  cases h1 : tag ("gset".data) (sp s) with
  | none => rw [h1] at h; cases h
  | some r1 => exact ⟨r1, (tag_some_append h1).symm⟩

theorem receive_money_kw {s : List Char} {x : List Char × Instruction}
    (h : receive_money_instruction s = some x) :
    ("receive_money".data) <+: sp s := by
  unfold receive_money_instruction at h
  cases h1 : tag ("receive_money".data) (sp s) with
  | none => rw [h1] at h; cases h
  | some r1 => exact ⟨r1, (tag_some_append h1).symm⟩

theorem remove_item_kw {s : List Char} {x : List Char × Instruction}
    (h : remove_item_instruction s = some x) :
    ("remove_item".data) <+: sp s := by
  unfold remove_item_instruction at h
  cases h1 : tag ("remove_item".data) (sp s) with
  | none => rw [h1] at h; cases h
  | some r1 => exact ⟨r1, (tag_some_append h1).symm⟩

theorem special_kw {s : List Char} {x : List Char × Instruction}
    (h : special_instruction s = some x) : ("special".data) <+: sp s := by
  unfold special_instruction at h
  cases h1 : tag ("special".data) (sp s) with
  | none => rw [h1] at h; cases h
  | some r1 => exact ⟨r1, (tag_some_append h1).symm⟩

/-! ## Per-form inversion: success returns a suffix of the input and
requires a line terminator -/

theorem jump_inv {s r : List Char} {i : Instruction}
    (h : jump_instruction s = some (r, i)) : r <:+ s ∧ '\n' ∈ s := by
  unfold jump_instruction at h
  cases h1 : tag ("jump".data) (sp s) with
  | none => rw [h1] at h; cases h
  | some r1 =>
    rw [h1] at h; dsimp only at h
    cases h2 : tag ("(".data) (sp r1) with
    | none => rw [h2] at h; cases h
    | some r2 =>
      rw [h2] at h; dsimp only at h
      cases h3 : ident (sp r2) with
      | none => rw [h3] at h; cases h
      | some p3 =>
        obtain ⟨r3, name⟩ := p3
        rw [h3] at h; dsimp only at h
        cases h4 : tag (")".data) (sp r3) with
        | none => rw [h4] at h; cases h
        | some r4 =>
          rw [h4] at h; dsimp only at h
          cases h5 : end_line (r4) with
          | none => rw [h5] at h; cases h
          | some r5 =>
            rw [h5] at h; dsimp only at h
            have hre : r = r5 :=
              congrArg Prod.fst (Option.some_inj.mp h).symm
            refine ⟨?_, ?_⟩
            · rw [hre]
              exact ((end_line_suffix h5).trans (((tag_suffix h4).trans (sp_suffix r3)).trans (((ident_suffix h3).trans (sp_suffix r2)).trans (((tag_suffix h2).trans (sp_suffix r1)).trans ((tag_suffix h1).trans (sp_suffix s))))))
            · exact suffix_mem (((tag_suffix h4).trans (sp_suffix r3)).trans (((ident_suffix h3).trans (sp_suffix r2)).trans (((tag_suffix h2).trans (sp_suffix r1)).trans ((tag_suffix h1).trans (sp_suffix s))))) (end_line_mem h5)

theorem jump_if_inv {s r : List Char} {i : Instruction}
    (h : jump_if_instruction s = some (r, i)) : r <:+ s ∧ '\n' ∈ s := by
  unfold jump_if_instruction at h
  cases h1 : tag ("jump_if".data) (sp s) with
  | none => rw [h1] at h; cases h
  | some r1 =>
    rw [h1] at h; dsimp only at h
    cases h2 : chr '(' (sp r1) with
    | none => rw [h2] at h; cases h
    | some r2 =>
      rw [h2] at h; dsimp only at h
      cases h3 : ident (sp r2) with
      | none => rw [h3] at h; cases h
      | some p3 =>
        obtain ⟨r3, name⟩ := p3
        rw [h3] at h; dsimp only at h
        cases h4 : chr ',' (sp r3) with
        | none => rw [h4] at h; cases h
        | some r4 =>
          rw [h4] at h; dsimp only at h
          cases h5 : expr (sp r4) with
          | none => rw [h5] at h; cases h
          | some p5 =>
            obtain ⟨r5, e⟩ := p5
            rw [h5] at h; dsimp only at h
            cases h6 : chr ')' (sp r5) with
            | none => rw [h6] at h; cases h
            | some r6 =>
              rw [h6] at h; dsimp only at h
              cases h7 : end_line (r6) with
              | none => rw [h7] at h; cases h
              | some r7 =>
                rw [h7] at h; dsimp only at h
                have hre : r = r7 :=
                  congrArg Prod.fst (Option.some_inj.mp h).symm
                refine ⟨?_, ?_⟩
                · rw [hre]
                  exact ((end_line_suffix h7).trans (((chr_suffix h6).trans (sp_suffix r5)).trans (((expr_suffix h5).trans (sp_suffix r4)).trans (((chr_suffix h4).trans (sp_suffix r3)).trans (((ident_suffix h3).trans (sp_suffix r2)).trans (((chr_suffix h2).trans (sp_suffix r1)).trans ((tag_suffix h1).trans (sp_suffix s))))))))
                · exact suffix_mem (((chr_suffix h6).trans (sp_suffix r5)).trans (((expr_suffix h5).trans (sp_suffix r4)).trans (((chr_suffix h4).trans (sp_suffix r3)).trans (((ident_suffix h3).trans (sp_suffix r2)).trans (((chr_suffix h2).trans (sp_suffix r1)).trans ((tag_suffix h1).trans (sp_suffix s))))))) (end_line_mem h7)

theorem talk_choices_inv {s r : List Char} {i : Instruction}
    (h : talk_instruction_with_choices s = some (r, i)) : r <:+ s ∧ '\n' ∈ s := by
  unfold talk_instruction_with_choices at h
  cases h1 : tag ("talk".data) (sp s) with
  | none => rw [h1] at h; cases h
  | some r1 =>
    rw [h1] at h; dsimp only at h
    cases h2 : chr '(' (sp r1) with
    | none => rw [h2] at h; cases h
    | some r2 =>
      rw [h2] at h; dsimp only at h
      cases h3 : ident (sp r2) with
      | none => rw [h3] at h; cases h
      | some p3 =>
        obtain ⟨r3, text_id⟩ := p3
        rw [h3] at h; dsimp only at h
        cases h4 : chr ',' (sp r3) with
        | none => rw [h4] at h; cases h
        | some r4 =>
          rw [h4] at h; dsimp only at h
          cases h5 : array_choices (r4) with
          | none => rw [h5] at h; cases h
          | some p5 =>
            obtain ⟨r5, choices⟩ := p5
            rw [h5] at h; dsimp only at h
            cases h6 : chr ')' (r5) with
            | none => rw [h6] at h; cases h
            | some r6 =>
              rw [h6] at h; dsimp only at h
              cases h7 : end_line (r6) with
              | none => rw [h7] at h; cases h
              | some r7 =>
                rw [h7] at h; dsimp only at h
                have hre : r = r7 :=
                  congrArg Prod.fst (Option.some_inj.mp h).symm
                refine ⟨?_, ?_⟩
                · rw [hre]
                  exact ((end_line_suffix h7).trans ((chr_suffix h6).trans ((array_choices_suffix h5).trans (((chr_suffix h4).trans (sp_suffix r3)).trans (((ident_suffix h3).trans (sp_suffix r2)).trans (((chr_suffix h2).trans (sp_suffix r1)).trans ((tag_suffix h1).trans (sp_suffix s))))))))
                · exact suffix_mem ((chr_suffix h6).trans ((array_choices_suffix h5).trans (((chr_suffix h4).trans (sp_suffix r3)).trans (((ident_suffix h3).trans (sp_suffix r2)).trans (((chr_suffix h2).trans (sp_suffix r1)).trans ((tag_suffix h1).trans (sp_suffix s))))))) (end_line_mem h7)

theorem talk_inv {s r : List Char} {i : Instruction}
    (h : talk_instruction s = some (r, i)) : r <:+ s ∧ '\n' ∈ s := by
  unfold talk_instruction at h
  cases h1 : tag ("talk".data) (sp s) with
  | none => rw [h1] at h; cases h
  | some r1 =>
    rw [h1] at h; dsimp only at h
    cases h2 : chr '(' (sp r1) with
    | none => rw [h2] at h; cases h
    | some r2 =>
      rw [h2] at h; dsimp only at h
      cases h3 : ident (sp r2) with
      | none => rw [h3] at h; cases h
      | some p3 =>
        obtain ⟨r3, text_id⟩ := p3
        rw [h3] at h; dsimp only at h
        cases h4 : chr ')' (sp r3) with
        | none => rw [h4] at h; cases h
        | some r4 =>
          rw [h4] at h; dsimp only at h
          cases h5 : end_line (r4) with
          | none => rw [h5] at h; cases h
          | some r5 =>
            rw [h5] at h; dsimp only at h
            have hre : r = r5 :=
              congrArg Prod.fst (Option.some_inj.mp h).symm
            refine ⟨?_, ?_⟩
            · rw [hre]
              exact ((end_line_suffix h5).trans (((chr_suffix h4).trans (sp_suffix r3)).trans (((ident_suffix h3).trans (sp_suffix r2)).trans (((chr_suffix h2).trans (sp_suffix r1)).trans ((tag_suffix h1).trans (sp_suffix s))))))
            · exact suffix_mem (((chr_suffix h4).trans (sp_suffix r3)).trans (((ident_suffix h3).trans (sp_suffix r2)).trans (((chr_suffix h2).trans (sp_suffix r1)).trans ((tag_suffix h1).trans (sp_suffix s))))) (end_line_mem h5)

theorem gset_inv {s r : List Char} {i : Instruction}
    (h : gset_instruction s = some (r, i)) : r <:+ s ∧ '\n' ∈ s := by
  unfold gset_instruction at h
  cases h1 : tag ("gset".data) (sp s) with
  | none => rw [h1] at h; cases h
  | some r1 =>
    rw [h1] at h; dsimp only at h
    cases h2 : chr '(' (sp r1) with
    | none => rw [h2] at h; cases h
    | some r2 =>
      rw [h2] at h; dsimp only at h
      cases h3 : ident (sp r2) with
      | none => rw [h3] at h; cases h
      | some p3 =>
        obtain ⟨r3, var_name⟩ := p3
        rw [h3] at h; dsimp only at h
        cases h4 : chr ',' (sp r3) with
        | none => rw [h4] at h; cases h
        | some r4 =>
          rw [h4] at h; dsimp only at h
          cases h5 : expr (sp r4) with
          | none => rw [h5] at h; cases h
          | some p5 =>
            obtain ⟨r5, value⟩ := p5
            rw [h5] at h; dsimp only at h
            cases h6 : chr ')' (sp r5) with
            | none => rw [h6] at h; cases h
            | some r6 =>
              rw [h6] at h; dsimp only at h
              cases h7 : end_line (r6) with
              | none => rw [h7] at h; cases h
              | some r7 =>
                rw [h7] at h; dsimp only at h
                have hre : r = r7 :=
                  congrArg Prod.fst (Option.some_inj.mp h).symm
                refine ⟨?_, ?_⟩
                · rw [hre]
                  exact ((end_line_suffix h7).trans (((chr_suffix h6).trans (sp_suffix r5)).trans (((expr_suffix h5).trans (sp_suffix r4)).trans (((chr_suffix h4).trans (sp_suffix r3)).trans (((ident_suffix h3).trans (sp_suffix r2)).trans (((chr_suffix h2).trans (sp_suffix r1)).trans ((tag_suffix h1).trans (sp_suffix s))))))))
                · exact suffix_mem (((chr_suffix h6).trans (sp_suffix r5)).trans (((expr_suffix h5).trans (sp_suffix r4)).trans (((chr_suffix h4).trans (sp_suffix r3)).trans (((ident_suffix h3).trans (sp_suffix r2)).trans (((chr_suffix h2).trans (sp_suffix r1)).trans ((tag_suffix h1).trans (sp_suffix s))))))) (end_line_mem h7)

theorem receive_money_inv {s r : List Char} {i : Instruction}
    (h : receive_money_instruction s = some (r, i)) : r <:+ s ∧ '\n' ∈ s := by
  unfold receive_money_instruction at h
  cases h1 : tag ("receive_money".data) (sp s) with
  | none => rw [h1] at h; cases h
  | some r1 =>
    rw [h1] at h; dsimp only at h
    cases h2 : chr '(' (sp r1) with
    | none => rw [h2] at h; cases h
    | some r2 =>
      rw [h2] at h; dsimp only at h
      cases h3 : expr (sp r2) with
      | none => rw [h3] at h; cases h
      | some p3 =>
        obtain ⟨r3, e⟩ := p3
        rw [h3] at h; dsimp only at h
        cases h4 : chr ')' (sp r3) with
        | none => rw [h4] at h; cases h
        | some r4 =>
          rw [h4] at h; dsimp only at h
          cases h5 : end_line (r4) with
          | none => rw [h5] at h; cases h
          | some r5 =>
            rw [h5] at h; dsimp only at h
            have hre : r = r5 :=
              congrArg Prod.fst (Option.some_inj.mp h).symm
            refine ⟨?_, ?_⟩
            · rw [hre]
              exact ((end_line_suffix h5).trans (((chr_suffix h4).trans (sp_suffix r3)).trans (((expr_suffix h3).trans (sp_suffix r2)).trans (((chr_suffix h2).trans (sp_suffix r1)).trans ((tag_suffix h1).trans (sp_suffix s))))))
            · exact suffix_mem (((chr_suffix h4).trans (sp_suffix r3)).trans (((expr_suffix h3).trans (sp_suffix r2)).trans (((chr_suffix h2).trans (sp_suffix r1)).trans ((tag_suffix h1).trans (sp_suffix s))))) (end_line_mem h5)

theorem remove_item_inv {s r : List Char} {i : Instruction}
    (h : remove_item_instruction s = some (r, i)) : r <:+ s ∧ '\n' ∈ s := by
  unfold remove_item_instruction at h
  cases h1 : tag ("remove_item".data) (sp s) with
  | none => rw [h1] at h; cases h
  | some r1 =>
    rw [h1] at h; dsimp only at h
    cases h2 : chr '(' (sp r1) with
    | none => rw [h2] at h; cases h
    | some r2 =>
      rw [h2] at h; dsimp only at h
      cases h3 : ident (sp r2) with
      | none => rw [h3] at h; cases h
      | some p3 =>
        obtain ⟨r3, item_id⟩ := p3
        rw [h3] at h; dsimp only at h
        cases h4 : chr ')' (sp r3) with
        | none => rw [h4] at h; cases h
        | some r4 =>
          rw [h4] at h; dsimp only at h
          cases h5 : end_line (r4) with
          | none => rw [h5] at h; cases h
          | some r5 =>
            rw [h5] at h; dsimp only at h
            have hre : r = r5 :=
              congrArg Prod.fst (Option.some_inj.mp h).symm
            refine ⟨?_, ?_⟩
            · rw [hre]
              exact ((end_line_suffix h5).trans (((chr_suffix h4).trans (sp_suffix r3)).trans (((ident_suffix h3).trans (sp_suffix r2)).trans (((chr_suffix h2).trans (sp_suffix r1)).trans ((tag_suffix h1).trans (sp_suffix s))))))
            · exact suffix_mem (((chr_suffix h4).trans (sp_suffix r3)).trans (((ident_suffix h3).trans (sp_suffix r2)).trans (((chr_suffix h2).trans (sp_suffix r1)).trans ((tag_suffix h1).trans (sp_suffix s))))) (end_line_mem h5)

theorem special_inv {s r : List Char} {i : Instruction}
    (h : special_instruction s = some (r, i)) : r <:+ s ∧ '\n' ∈ s := by
  unfold special_instruction at h
  cases h1 : tag ("special".data) (sp s) with
  | none => rw [h1] at h; cases h
  | some r1 =>
    rw [h1] at h; dsimp only at h
    cases h2 : tag ("(".data) (sp r1) with
    | none => rw [h2] at h; cases h
    | some r2 =>
      rw [h2] at h; dsimp only at h
      cases h3 : symbol (sp r2) with
      | none => rw [h3] at h; cases h
      | some p3 =>
        obtain ⟨r3, sym⟩ := p3
        rw [h3] at h; dsimp only at h
        cases h4 : tag (")".data) (sp r3) with
        | none => rw [h4] at h; cases h
        | some r4 =>
          rw [h4] at h; dsimp only at h
          cases h5 : specialFromStr sym with
          | none => rw [h5] at h; cases h
          | some k =>
            rw [h5] at h; dsimp only at h
            cases h6 : end_line (r4) with
            | none => rw [h6] at h; cases h
            | some r5 =>
              rw [h6] at h; dsimp only at h
              have hre : r = r5 :=
                congrArg Prod.fst (Option.some_inj.mp h).symm
              refine ⟨?_, ?_⟩
              · rw [hre]
                exact ((end_line_suffix h6).trans (((tag_suffix h4).trans (sp_suffix r3)).trans (((symbol_suffix h3).trans (sp_suffix r2)).trans (((tag_suffix h2).trans (sp_suffix r1)).trans ((tag_suffix h1).trans (sp_suffix s))))))
              · exact suffix_mem (((tag_suffix h4).trans (sp_suffix r3)).trans (((symbol_suffix h3).trans (sp_suffix r2)).trans (((tag_suffix h2).trans (sp_suffix r1)).trans ((tag_suffix h1).trans (sp_suffix s))))) (end_line_mem h6)

theorem instruction_inv {s r : List Char} {i : Instruction}
    (h : instruction s = some (r, i)) : r <:+ s ∧ '\n' ∈ s := by
  unfold instruction instrAlts at h
  simp only [altList] at h
  cases ha0 : jump_instruction s with
  | some x =>
    rw [ha0] at h; dsimp only at h
    exact jump_inv ((Option.some_inj.mp h) ▸ ha0)
  | none =>
    rw [ha0] at h; dsimp only at h
    cases ha1 : jump_if_instruction s with
    | some x =>
      rw [ha1] at h; dsimp only at h
      exact jump_if_inv ((Option.some_inj.mp h) ▸ ha1)
    | none =>
      rw [ha1] at h; dsimp only at h
      cases ha2 : talk_instruction_with_choices s with
      | some x =>
        rw [ha2] at h; dsimp only at h
        exact talk_choices_inv ((Option.some_inj.mp h) ▸ ha2)
      | none =>
        rw [ha2] at h; dsimp only at h
        cases ha3 : talk_instruction s with
        | some x =>
          rw [ha3] at h; dsimp only at h
          exact talk_inv ((Option.some_inj.mp h) ▸ ha3)
        | none =>
          rw [ha3] at h; dsimp only at h
          cases ha4 : gset_instruction s with
          | some x =>
            rw [ha4] at h; dsimp only at h
            exact gset_inv ((Option.some_inj.mp h) ▸ ha4)
          | none =>
            rw [ha4] at h; dsimp only at h
            cases ha5 : receive_money_instruction s with
            | some x =>
              rw [ha5] at h; dsimp only at h
              exact receive_money_inv ((Option.some_inj.mp h) ▸ ha5)
            | none =>
              rw [ha5] at h; dsimp only at h
              cases ha6 : remove_item_instruction s with
              | some x =>
                rw [ha6] at h; dsimp only at h
                exact remove_item_inv ((Option.some_inj.mp h) ▸ ha6)
              | none =>
                rw [ha6] at h; dsimp only at h
                cases ha7 : special_instruction s with
                | some x =>
                  rw [ha7] at h; dsimp only at h
                  exact special_inv ((Option.some_inj.mp h) ▸ ha7)
                | none =>
                  rw [ha7] at h; dsimp only at h
                  cases h

theorem many0_loop_inv :
    ∀ {fuel : Nat} {s r : List Char} {acc out : List Instruction},
      many0_instr_loop fuel s acc = some (r, out) →
        r <:+ s ∧ ∃ t, out = acc ++ t ∧ InstrSeq s r t := by
  intro fuel
  induction fuel with
  | zero => intro s r acc out h; simp [many0_instr_loop] at h
  | succ n ih =>
    intro s r acc out h
    rw [many0_instr_loop] at h
    by_cases hs : s.isEmpty
    · rw [if_pos hs] at h
      simp only [Option.some_inj, Prod.mk.injEq] at h
      refine ⟨?_, [], ?_, ?_⟩
      · rw [← h.1]
      · simp [h.2]
      · rw [← h.1]; exact InstrSeq.nil s
    · rw [if_neg hs] at h
      cases hi : instruction s with
      | none =>
        rw [hi] at h; dsimp only at h
        simp only [Option.some_inj, Prod.mk.injEq] at h
        refine ⟨?_, [], ?_, ?_⟩
        · rw [← h.1]
        · simp [h.2]
        · rw [← h.1]; exact InstrSeq.nil s
      | some p =>
        obtain ⟨s2, ins⟩ := p
        rw [hi] at h; dsimp only at h
        by_cases hl : s2.length = s.length
        · rw [if_pos hl] at h; cases h
        · rw [if_neg hl] at h
          obtain ⟨hsfx, t, hout, hseq⟩ := ih h
          refine ⟨hsfx.trans (instruction_inv hi).1, ins :: t, ?_, ?_⟩
          · rw [hout]; simp
          · exact InstrSeq.cons s s2 r ins t hi hseq

theorem many0_inv {s r : List Char} {out : List Instruction}
    (h : many0_instruction s = some (r, out)) :
    r <:+ s ∧ InstrSeq s r out := by
  obtain ⟨hsfx, t, hout, hseq⟩ := many0_loop_inv h
  simp only [List.nil_append] at hout
  exact ⟨hsfx, hout ▸ hseq⟩

theorem section_start_inv {s r : List Char} {n : String}
    (h : section_start s = some (r, n)) :
    r.length < s.length ∧ '\n' ∈ s := by
  unfold section_start at h
  cases h1 : tag ("---".data) s with
  | none => rw [h1] at h; cases h
  | some r1 =>
    rw [h1] at h; dsimp only at h
    cases h2 : space r1 with
    | none => rw [h2] at h; cases h
    | some r2 =>
      rw [h2] at h; dsimp only at h
      cases h3 : ident r2 with
      | none => rw [h3] at h; cases h
      | some p3 =>
        obtain ⟨r3, name⟩ := p3
        rw [h3] at h; dsimp only at h
        cases h4 : end_line r3 with
        | none => rw [h4] at h; cases h
        | some r4 =>
          rw [h4] at h; dsimp only at h
          have hre : r = r4 := congrArg Prod.fst (Option.some_inj.mp h).symm
          have hlen : s.length = r1.length + 3 := by
            rw [tag_some_append h1]; simp
          have l4 : r4.length ≤ r3.length := (end_line_suffix h4).length_le
          have l3 : r3.length ≤ r2.length := (ident_suffix h3).length_le
          have l2 : r2.length ≤ r1.length := (space_suffix h2).length_le
          refine ⟨?_, ?_⟩
          · rw [hre]; omega
          · exact suffix_mem
              (((ident_suffix h3).trans (space_suffix h2)).trans
                (tag_suffix h1)) (end_line_mem h4)

theorem section_inv {s r : List Char} {n : String} {il : List Instruction}
    (h : section_p s = some (r, (n, il))) :
    r.length < s.length ∧
      ∃ s1, section_start s = some (s1, n) ∧ InstrSeq s1 r il := by
  unfold section_p at h
  cases h1 : section_start s with
  | none => rw [h1] at h; cases h
  | some p1 =>
    obtain ⟨r1, name⟩ := p1
    rw [h1] at h; dsimp only at h
    cases h2 : many0_instruction r1 with
    | none => rw [h2] at h; cases h
    | some p2 =>
      obtain ⟨r2, instrs⟩ := p2
      rw [h2] at h; dsimp only at h
      simp only [Option.some_inj, Prod.mk.injEq] at h
      obtain ⟨hr, hn, hil⟩ := h
      obtain ⟨hsfx, hseq⟩ := many0_inv h2
      refine ⟨?_, r1, ?_, ?_⟩
      · rw [← hr]
        exact lt_of_le_of_lt hsfx.length_le (section_start_inv h1).1
      · rw [← hn]
      · rw [← hr, ← hil]; exact hseq

/-! ## Head-character failure lemmas -/

theorem arm_fail_head {p : List Char → Option (List Char × Instruction)}
    {k0 : Char} {kt : List Char}
    (hp : ∀ s x, p s = some x → (k0 :: kt) <+: sp s)
    {c : Char} {r : List Char} (hsp : isSpChar c = false) (hne : k0 ≠ c) :
    p (c :: r) = none := by
  cases h : p (c :: r) with
  | none => rfl
  | some x =>
    have hpre := hp _ _ h
    rw [sp_cons_of_false hsp] at hpre
    obtain ⟨t, ht⟩ := hpre
    rw [List.cons_append] at ht
    exact absurd (List.head_eq_of_cons_eq ht) hne

theorem instruction_fail_head {c : Char} {r : List Char}
    (hsp : isSpChar c = false) (hj : c ≠ 'j') (ht : c ≠ 't') (hg : c ≠ 'g')
    (hr : c ≠ 'r') (hs : c ≠ 's') : instruction (c :: r) = none := by
  unfold instruction instrAlts
  simp only [altList,
    arm_fail_head (fun s x h => jump_kw h) hsp (Ne.symm hj),
    arm_fail_head (fun s x h => jump_if_kw h) hsp (Ne.symm hj),
    arm_fail_head (fun s x h => talk_choices_kw h) hsp (Ne.symm ht),
    arm_fail_head (fun s x h => talk_kw h) hsp (Ne.symm ht),
    arm_fail_head (fun s x h => gset_kw h) hsp (Ne.symm hg),
    arm_fail_head (fun s x h => receive_money_kw h) hsp (Ne.symm hr),
    arm_fail_head (fun s x h => remove_item_kw h) hsp (Ne.symm hr),
    arm_fail_head (fun s x h => special_kw h) hsp (Ne.symm hs)]

theorem instruction_head_s {c : Char} {r : List Char}
    (hsp : isSpChar c = false) (hj : c ≠ 'j') (ht : c ≠ 't') (hg : c ≠ 'g')
    (hr : c ≠ 'r') :
    instruction (c :: r) = special_instruction (c :: r) := by
  unfold instruction instrAlts
  simp only [altList,
    arm_fail_head (fun s x h => jump_kw h) hsp (Ne.symm hj),
    arm_fail_head (fun s x h => jump_if_kw h) hsp (Ne.symm hj),
    arm_fail_head (fun s x h => talk_choices_kw h) hsp (Ne.symm ht),
    arm_fail_head (fun s x h => talk_kw h) hsp (Ne.symm ht),
    arm_fail_head (fun s x h => gset_kw h) hsp (Ne.symm hg),
    arm_fail_head (fun s x h => receive_money_kw h) hsp (Ne.symm hr),
    arm_fail_head (fun s x h => remove_item_kw h) hsp (Ne.symm hr)]
  cases hss : special_instruction (c :: r) with
  | none => rfl
  | some x => rfl

/-! ## Disjointness of the instruction alternatives -/

theorem disj_of_kw {p q : List Char → Option (List Char × Instruction)}
    {k1 k2 : List Char}
    (hp : ∀ s x, p s = some x → k1 <+: sp s)
    (hq : ∀ s x, q s = some x → k2 <+: sp s)
    (h12 : ¬ k1 <+: k2) (h21 : ¬ k2 <+: k1) : Disj p q := by
  intro s
  cases hps : p s with
  | none => exact Or.inl rfl
  | some x =>
    cases hqs : q s with
    | none => exact Or.inr rfl
    | some y =>
      rcases prefix_comparable (hp s x hps) (hq s y hqs) with h | h
      · exact absurd h h12
      · exact absurd h h21

theorem jump_fail_of_jump_if_input {s u : List Char}
    (hsp : sp s = ("jump_if".data) ++ u) : jump_instruction s = none := by
  unfold jump_instruction
  rw [hsp]
  rfl

theorem disj_jump_jump_if : Disj jump_instruction jump_if_instruction := by
  intro s
  cases h : jump_if_instruction s with
  | none => exact Or.inr rfl
  | some x =>
    obtain ⟨u, hu⟩ := jump_if_kw h
    exact Or.inl (jump_fail_of_jump_if_input hu.symm)

theorem disj_choices_talk :
    Disj talk_instruction_with_choices talk_instruction := by
  intro s
  by_cases hc : talk_instruction_with_choices s = none
  · exact Or.inl hc
  · right
    obtain ⟨x, hx⟩ := Option.ne_none_iff_exists'.mp hc
    unfold talk_instruction_with_choices at hx
    unfold talk_instruction
    cases h1 : tag ("talk".data) (sp s) with
    | none => rfl
    | some r1 =>
      rw [h1] at hx; dsimp only at hx
      dsimp only
      cases h2 : chr '(' (sp r1) with
      | none => rfl
      | some r2 =>
        rw [h2] at hx; dsimp only at hx
        dsimp only
        cases h3 : ident (sp r2) with
        | none => rfl
        | some p3 =>
          obtain ⟨r3, tid⟩ := p3
          rw [h3] at hx; dsimp only at hx
          dsimp only
          cases h4 : chr ',' (sp r3) with
          | none => rw [h4] at hx; cases hx
          | some r4 =>
            rw [chr_some h4]
            rfl

theorem alts_pairwise : List.Pairwise Disj instrAlts := by
  unfold instrAlts
  refine List.Pairwise.cons ?g0 (List.Pairwise.cons ?g1
    (List.Pairwise.cons ?g2 (List.Pairwise.cons ?g3
      (List.Pairwise.cons ?g4 (List.Pairwise.cons ?g5
        (List.Pairwise.cons ?g6 (List.Pairwise.cons ?g7
          List.Pairwise.nil)))))))
  case g0 =>
    intro b hb
    simp only [List.mem_cons, List.not_mem_nil, or_false] at hb
    rcases hb with rfl | rfl | rfl | rfl | rfl | rfl | rfl
    · exact disj_jump_jump_if
    · exact disj_of_kw (fun s x h => jump_kw h) (fun s x h => talk_choices_kw h)
          (by decide) (by decide)
    · exact disj_of_kw (fun s x h => jump_kw h) (fun s x h => talk_kw h)
          (by decide) (by decide)
    · exact disj_of_kw (fun s x h => jump_kw h) (fun s x h => gset_kw h)
          (by decide) (by decide)
    · exact disj_of_kw (fun s x h => jump_kw h) (fun s x h => receive_money_kw h)
          (by decide) (by decide)
    · exact disj_of_kw (fun s x h => jump_kw h) (fun s x h => remove_item_kw h)
          (by decide) (by decide)
    · exact disj_of_kw (fun s x h => jump_kw h) (fun s x h => special_kw h)
          (by decide) (by decide)
  case g1 =>
    intro b hb
    simp only [List.mem_cons, List.not_mem_nil, or_false] at hb
    rcases hb with rfl | rfl | rfl | rfl | rfl | rfl
    · exact disj_of_kw (fun s x h => jump_if_kw h) (fun s x h => talk_choices_kw h)
          (by decide) (by decide)
    · exact disj_of_kw (fun s x h => jump_if_kw h) (fun s x h => talk_kw h)
          (by decide) (by decide)
    · exact disj_of_kw (fun s x h => jump_if_kw h) (fun s x h => gset_kw h)
          (by decide) (by decide)
    · exact disj_of_kw (fun s x h => jump_if_kw h) (fun s x h => receive_money_kw h)
          (by decide) (by decide)
    · exact disj_of_kw (fun s x h => jump_if_kw h) (fun s x h => remove_item_kw h)
          (by decide) (by decide)
    · exact disj_of_kw (fun s x h => jump_if_kw h) (fun s x h => special_kw h)
          (by decide) (by decide)
  case g2 =>
    intro b hb
    simp only [List.mem_cons, List.not_mem_nil, or_false] at hb
    rcases hb with rfl | rfl | rfl | rfl | rfl
    · exact disj_choices_talk
    · exact disj_of_kw (fun s x h => talk_choices_kw h) (fun s x h => gset_kw h)
          (by decide) (by decide)
    · exact disj_of_kw (fun s x h => talk_choices_kw h) (fun s x h => receive_money_kw h)
          (by decide) (by decide)
    · exact disj_of_kw (fun s x h => talk_choices_kw h) (fun s x h => remove_item_kw h)
          (by decide) (by decide)
    · exact disj_of_kw (fun s x h => talk_choices_kw h) (fun s x h => special_kw h)
          (by decide) (by decide)
  case g3 =>
    intro b hb
    simp only [List.mem_cons, List.not_mem_nil, or_false] at hb
    rcases hb with rfl | rfl | rfl | rfl
    · exact disj_of_kw (fun s x h => talk_kw h) (fun s x h => gset_kw h)
          (by decide) (by decide)
    · exact disj_of_kw (fun s x h => talk_kw h) (fun s x h => receive_money_kw h)
          (by decide) (by decide)
    · exact disj_of_kw (fun s x h => talk_kw h) (fun s x h => remove_item_kw h)
          (by decide) (by decide)
    · exact disj_of_kw (fun s x h => talk_kw h) (fun s x h => special_kw h)
          (by decide) (by decide)
  case g4 =>
    intro b hb
    simp only [List.mem_cons, List.not_mem_nil, or_false] at hb
    rcases hb with rfl | rfl | rfl
    · exact disj_of_kw (fun s x h => gset_kw h) (fun s x h => receive_money_kw h)
          (by decide) (by decide)
    · exact disj_of_kw (fun s x h => gset_kw h) (fun s x h => remove_item_kw h)
          (by decide) (by decide)
    · exact disj_of_kw (fun s x h => gset_kw h) (fun s x h => special_kw h)
          (by decide) (by decide)
  case g5 =>
    intro b hb
    simp only [List.mem_cons, List.not_mem_nil, or_false] at hb
    rcases hb with rfl | rfl
    · exact disj_of_kw (fun s x h => receive_money_kw h) (fun s x h => remove_item_kw h)
          (by decide) (by decide)
    · exact disj_of_kw (fun s x h => receive_money_kw h) (fun s x h => special_kw h)
          (by decide) (by decide)
  case g6 =>
    intro b hb
    simp only [List.mem_cons, List.not_mem_nil, or_false] at hb
    rcases hb with rfl
    · exact disj_of_kw (fun s x h => remove_item_kw h) (fun s x h => special_kw h)
          (by decide) (by decide)
  case g7 =>
    intro b hb
    simp at hb

theorem disj_symm : Symmetric Disj :=
  fun p q h s => (h s).symm

theorem altList_perm :
    ∀ {l1 l2 : List (List Char → Option (List Char × Instruction))},
      l1.Perm l2 → List.Pairwise Disj l1 →
        ∀ s, altList l1 s = altList l2 s := by
  intro l1 l2 hperm
  induction hperm with
  | nil => intro _ _; rfl
  | cons x hp ih =>
    intro hpw s
    have ht := ih hpw.of_cons s
    simp only [altList]
    cases hx : x s with
    | some r => rfl
    | none => exact ht
  | swap x y l =>
    intro hpw s
    have hd : Disj y x :=
      (List.pairwise_cons.mp hpw).1 x (List.mem_cons_self x l)
    simp only [altList]
    rcases hd s with hy | hx
    · rw [hy]
    · rw [hx]
  | trans h1 h2 ih1 ih2 =>
    intro hpw s
    have hpw2 := (h1.pairwise_iff (fun hxy => disj_symm hxy)).mp hpw
    rw [ih1 hpw s, ih2 hpw2 s]

/-! ## Computation helpers for the section fold and instruction repetition -/

theorem isEmpty_false_of_ne {s : List Char} (h : s ≠ []) :
    s.isEmpty = false := by
  cases s with
  | nil => exact absurd rfl h
  | cons a t => rfl

theorem section_p_nil : section_p [] = none := rfl

theorem many0_of_fail {s : List Char} (h : instruction s = none) :
    many0_instruction s = some (s, []) := by
  unfold many0_instruction
  rw [show s.length + 1 = Nat.succ s.length from rfl, many0_instr_loop]
  by_cases hs : s.isEmpty
  · rw [if_pos hs]
  · rw [if_neg hs, h]

theorem fold_loop_eq (fuel : Nat) (s : List Char)
    (m : List (String × List Instruction)) :
    fold_sections_loop (fuel + 1) s m =
      if s.isEmpty then some (s, m)
      else
        match section_p s with
        | none => some (s, m)
        | some (s2, sec) =>
          if s2.length = s.length then none
          else fold_sections_loop fuel s2 (hmInsert sec.1 sec.2 m) := rfl

theorem fold_loop_stop {fuel : Nat} {s : List Char}
    {m : List (String × List Instruction)} (hf : 0 < fuel)
    (h : section_p s = none) : fold_sections_loop fuel s m = some (s, m) := by
  obtain ⟨k, rfl⟩ : ∃ k, fuel = k + 1 := ⟨fuel - 1, by omega⟩
  rw [fold_loop_eq]
  by_cases hs : s.isEmpty
  · rw [if_pos hs]
  · rw [if_neg hs, h]

theorem fold_loop_step {fuel : Nat} {s s2 : List Char}
    {sec : String × List Instruction} {m : List (String × List Instruction)}
    (hlt : s2.length < s.length) (hf : s.length < fuel)
    (h : section_p s = some (s2, sec)) :
    fold_sections_loop fuel s m =
      fold_sections_loop (fuel - 1) s2 (hmInsert sec.1 sec.2 m) := by
  obtain ⟨k, rfl⟩ : ∃ k, fuel = k + 1 := ⟨fuel - 1, by omega⟩
  rw [fold_loop_eq]
  have hs : s.isEmpty = false := by
    cases s with
    | nil => simp at hlt
    | cons a t => rfl
  rw [if_neg (by simp [hs] : ¬ s.isEmpty = true)]
  rw [h]
  dsimp only
  rw [if_neg (by omega : ¬ s2.length = s.length)]
  simp

theorem fold_sections_none {s : List Char} (h : section_p s = none) :
    fold_sections s = some (s, []) :=
  fold_loop_stop (by omega) h

theorem fold_sections_one {s : List Char} {n : String} {il : List Instruction}
    (h : section_p s = some ([], (n, il))) :
    fold_sections s = some ([], [(n, il)]) := by
  have hlen : 0 < s.length := by
    have := (section_inv h).1
    simp at this
    omega
  unfold fold_sections
  rw [fold_loop_step (section_inv h).1 (by omega) h]
  rw [fold_loop_stop (by simp; omega) section_p_nil]
  rfl

theorem fold_sections_two {s t2 : List Char} {n1 n2 : String}
    {il1 il2 : List Instruction}
    (h1 : section_p s = some (t2, (n1, il1)))
    (h2 : section_p t2 = some ([], (n2, il2))) :
    fold_sections s = some ([], hmInsert n2 il2 [(n1, il1)]) := by
  have l1 : t2.length < s.length := (section_inv h1).1
  have l2 := (section_inv h2).1
  have l2n : 0 < t2.length := by simpa using l2
  unfold fold_sections
  rw [fold_loop_step l1 (by omega) h1]
  rw [fold_loop_step l2 (by simp; omega) h2]
  rw [fold_loop_stop (by simp; omega) section_p_nil]
  rfl

theorem fold_sections_leftover {s r : List Char} {n : String}
    {il : List Instruction}
    (h1 : section_p s = some (r, (n, il))) (hr : section_p r = none) :
    fold_sections s = some (r, [(n, il)]) := by
  have l1 : r.length < s.length := (section_inv h1).1
  unfold fold_sections
  rw [fold_loop_step l1 (by omega) h1]
  rw [fold_loop_stop (by simp; omega) hr]
  rfl

theorem parse_ok_of_fold {u : String} {m : List (String × List Instruction)}
    (h : fold_sections u.data = some ([], m)) :
    parse u = Except.ok (Script.from_map m) := by
  unfold parse sections
  rw [h]
  rfl

theorem parse_err_of_fold {u : String} {r : List Char}
    {m : List (String × List Instruction)}
    (h : fold_sections u.data = some (r, m)) (hr : r ≠ []) :
    parse u = Except.error
      (PakCompileError.ScriptParseError parseErrorDescription) := by
  unfold parse sections
  rw [h]
  dsimp only
  rw [isEmpty_false_of_ne hr]
  rfl

theorem section_p_fail_head {c : Char} {r : List Char} (hc : c ≠ '-') :
    section_p (c :: r) = none := by
  unfold section_p section_start
  rw [show tag ("---".data) (c :: r)
      = if c = '-' then tag ("--".data) r else none from rfl]
  rw [if_neg hc]

/-! ## Token-level helpers for universally quantified identifiers/symbols -/

theorem idChar_not_sp {c : Char} (h : isIdChar c = true) :
    isSpChar c = false := by
  cases hs : isSpChar c with
  | false => rfl
  | true =>
    simp only [isSpChar, Bool.or_eq_true, beq_iff_eq] at hs
    rcases hs with ((rfl | rfl) | rfl) | rfl <;> simp [isIdChar] at h

theorem symChar_not_sp {c : Char} (h : isSymChar c = true) :
    isSpChar c = false := by
  cases hs : isSpChar c with
  | false => rfl
  | true =>
    simp only [isSpChar, Bool.or_eq_true, beq_iff_eq] at hs
    rcases hs with ((rfl | rfl) | rfl) | rfl <;> simp [isSymChar] at h

theorem ident_on_token {w : List Char} (hne : w ≠ [])
    (hw : ∀ c ∈ w, isIdChar c = true) {c0 : Char}
    (hc0 : isIdChar c0 = false) (r : List Char) :
    ident (w ++ c0 :: r) = some (c0 :: r, String.mk w) := by
  obtain ⟨ht, hd⟩ := takeWhile_append_stop hw hc0 r
  unfold ident
  rw [ht, hd, isEmpty_false_of_ne hne]
  rfl

theorem symbol_on_token {w : List Char} (hne : w ≠ [])
    (hw : ∀ c ∈ w, isSymChar c = true) {c0 : Char}
    (hc0 : isSymChar c0 = false) (r : List Char) :
    symbol (w ++ c0 :: r) = some (c0 :: r, String.mk w) := by
  obtain ⟨ht, hd⟩ := takeWhile_append_stop hw hc0 r
  unfold symbol
  rw [ht, hd, isEmpty_false_of_ne hne]
  rfl

/-! ## Claim theorems -/

/-- C1: compiling the corpus fixture source succeeds and yields a `Script`
whose mapping has exactly the two keys `test_section0` and `test_section1`,
where `test_section0` maps to
`[Talk("textid0", []), Special(ShopBuy), Jump("test_section1")]` and
`test_section1` maps to `[Talk("textid1", [("aaa","bbb"),("ccc","ddd")])]`. -/
theorem spec_c1_fixture :
    parse fixtureSource = Except.ok fixtureScript ∧
    fixtureScript.lookup "test_section0" = some fixtureSec0 ∧
    fixtureScript.lookup "test_section1" = some fixtureSec1 ∧
    ∀ k, k ≠ "test_section0" → k ≠ "test_section1" →
      fixtureScript.lookup k = none := by
  refine ⟨by decide, by decide, by decide, ?_⟩
  intro k h0 h1
  simp [fixtureScript, Script.lookup, Script.from_map, hmLookup,
    Ne.symm h0, Ne.symm h1]

/-- C1 witness: the fixture Script has no key other than the two section
names; instantiated at the key "other_key". -/
theorem spec_c1_witness :
    fixtureScript.lookup "other_key" = none :=
  spec_c1_fixture.2.2.2 "other_key" (by decide) (by decide)

/-- C8 counterexample: a script containing `talk(x, [])`, whose choice array
is empty, does not fail to compile: `parse` succeeds and yields
`Talk "x" []`. -/
theorem spec_c8_counterexample :
    parse "--- s\ntalk(x, [])\n" =
      Except.ok (Script.from_map [("s", [Instruction.Talk "x" []])]) := by
  decide

/-- C8 amended: the talk-with-choices form accepts an empty bracketed choice
array (nom's `separated_list!` matches zero occurrences): for every
identifier `w`, the instruction `talk(w, [])` parses to `Talk w []` rather
than being rejected. -/
theorem spec_c8_empty_choice_array (w : List Char) (hne : w ≠ [])
    (hw : ∀ c ∈ w, isIdChar c = true) :
    talk_instruction_with_choices
        ((("talk(").data ++ w) ++ (", [])\n").data) =
      some ([], Instruction.Talk (String.mk w) []) := by
  rw [List.append_assoc]
  rw [show ∀ r, talk_instruction_with_choices (("talk(").data ++ r)
      = talkChoicesAfterParen r from fun r => rfl]
  unfold talkChoicesAfterParen
  obtain ⟨c, w2, rfl⟩ : ∃ c w2, w = c :: w2 := by
    cases w with
    | nil => exact absurd rfl hne
    | cons a t => exact ⟨a, t, rfl⟩
  have hc : isIdChar c = true := hw c (List.mem_cons_self c w2)
  have hcs : isSpChar c = false := idChar_not_sp hc
  rw [show (c :: w2) ++ (", [])\n").data
      = c :: (w2 ++ (", [])\n").data) from rfl]
  rw [sp_cons_of_false hcs]
  rw [show c :: (w2 ++ (", [])\n").data)
      = (c :: w2) ++ (',' :: (" [])\n").data) from by simp]
  rw [ident_on_token hne hw (by decide) _]
  dsimp only
  rw [sp_cons_of_false (by decide : isSpChar ',' = false)]
  rfl

/-- C8 witness for the amended claim: instantiated at the identifier `x`. -/
theorem spec_c8_witness :
    (['x'] ≠ ([] : List Char) ∧ ∀ c ∈ ['x'], isIdChar c = true) ∧
    talk_instruction_with_choices
        ((("talk(").data ++ ['x']) ++ (", [])\n").data) =
      some ([], Instruction.Talk (String.mk ['x']) []) :=
  ⟨⟨by decide, by decide⟩,
    spec_c8_empty_choice_array ['x'] (by decide) (by decide)⟩

/-- C3: for every input string, `parse` returns `Ok` only if the section
grammar consumed the entire input, and when the fold of sections leaves a
nonempty remainder, `parse` returns a `ScriptParseError` with a description
string, never a truncated Script. -/
theorem spec_c3_all_or_nothing (s : String) :
    (∀ sc, parse s = Except.ok sc →
      ∃ m, fold_sections s.data = some ([], m) ∧ sc = Script.from_map m) ∧
    (∀ r m, fold_sections s.data = some (r, m) → r ≠ [] →
      ∃ d, parse s =
        Except.error (PakCompileError.ScriptParseError d)) := by
  constructor
  · intro sc hok
    unfold parse at hok
    cases hs : sections s.data with
    | none => rw [hs] at hok; cases hok
    | some m =>
      rw [hs] at hok; dsimp only at hok
      unfold sections at hs
      cases hf : fold_sections s.data with
      | none => rw [hf] at hs; cases hs
      | some p =>
        obtain ⟨r, m2⟩ := p
        rw [hf] at hs; dsimp only at hs
        by_cases hrem : r.isEmpty
        · rw [if_pos hrem] at hs
          have hr : r = [] := by
            cases r with
            | nil => rfl
            | cons a t => simp at hrem
          have hm : m2 = m := Option.some_inj.mp hs
          refine ⟨m, ?_, ?_⟩
          · rw [hr, hm]
          · exact (Except.ok.inj hok).symm
        · rw [if_neg hrem] at hs; cases hs
  · intro r m hf hr
    exact ⟨parseErrorDescription, parse_err_of_fold hf hr⟩

/-- C3 witness: the source `--- a\nxx` leaves the unparsable remainder `xx`,
and `parse` reports a ScriptParseError on it. -/
theorem spec_c3_witness :
    fold_sections (("--- a\nxx").data)
      = some (("xx").data, [("a", [])]) ∧
    ∃ d, parse "--- a\nxx" =
      Except.error (PakCompileError.ScriptParseError d) :=
  ⟨by decide,
    (spec_c3_all_or_nothing "--- a\nxx").2 (("xx").data) [("a", [])]
      (by decide) (by decide)⟩

/-- C7: a section header immediately followed by another section header or by
end of input compiles to a section with an empty instruction list; a source
that is a lone header parses to a Script mapping the name to `[]`. -/
theorem spec_c7_empty_section (s r : List Char) (n : String)
    (h : section_start s = some (r, n))
    (hr : r = [] ∨ ∃ r2, r = '-' :: r2) :
    section_p s = some (r, (n, [])) ∧
    (r = [] →
      parse (String.mk s) = Except.ok (Script.from_map [(n, [])])) := by
  have hsec : section_p s = some (r, (n, [])) := by
    unfold section_p
    rw [h]
    dsimp only
    rcases hr with rfl | ⟨r2, rfl⟩
    · rfl
    · rw [many0_of_fail (instruction_fail_head (by decide) (by decide)
        (by decide) (by decide) (by decide) (by decide))]
  constructor
  · exact hsec
  · intro hre
    subst hre
    exact parse_ok_of_fold (fold_sections_one hsec)

/-- C7 witness: instantiated at the lone-header source `--- a\n`. -/
theorem spec_c7_witness :
    section_p (("--- a\n").data) = some ([], ("a", [])) ∧
    (([] : List Char) = [] →
      parse (String.mk (("--- a\n").data)) =
        Except.ok (Script.from_map [("a", [])])) :=
  spec_c7_empty_section (("--- a\n").data) [] "a" (by decide) (Or.inl rfl)

/-- C2: when the source consists of two syntactically valid sections with the
same name, compilation succeeds and the Script maps that name to exactly the
later section's instruction list; the earlier list is discarded, not
merged. -/
theorem spec_c2_last_write_wins (s t2 : List Char) (n : String)
    (il1 il2 : List Instruction)
    (h1 : section_p s = some (t2, (n, il1)))
    (h2 : section_p t2 = some ([], (n, il2))) :
    parse (String.mk s) = Except.ok (Script.from_map [(n, il2)]) ∧
    (Script.from_map [(n, il2)]).lookup n = some il2 := by
  have hfold := fold_sections_two h1 h2
  have hins : hmInsert n il2 [(n, il1)] = [(n, il2)] := by
    simp [hmInsert]
  rw [hins] at hfold
  refine ⟨parse_ok_of_fold hfold, ?_⟩
  simp [Script.lookup, Script.from_map, hmLookup]

/-- C2 witness: two sections both named `a`; the compiled Script maps `a` to
the second section's instructions only. -/
theorem spec_c2_witness :
    parse (String.mk (("--- a\njump(x)\n--- a\ntalk(t)\n").data)) =
      Except.ok (Script.from_map [("a", [Instruction.Talk "t" []])]) ∧
    (Script.from_map [("a", [Instruction.Talk "t" []])]).lookup "a" =
      some [Instruction.Talk "t" []] :=
  spec_c2_last_write_wins (("--- a\njump(x)\n--- a\ntalk(t)\n").data)
    (("--- a\ntalk(t)\n").data) "a" [Instruction.Jump "x"]
    [Instruction.Talk "t" []] (by decide) (by decide)

/-- C5: a talk-with-choices instruction whose parenthesized argument list
spans a line break (any whitespace, newlines included, between the comma and
the choice array) parses to exactly the same Talk instruction value as the
equivalent single-line text. -/
theorem spec_c5_multiline (w : List Char)
    (hw : ∀ c ∈ w, isSpChar c = true) :
    talk_instruction_with_choices
        ((("talk(text-id,").data ++ w) ++ ("[(a, b), (c, d)])\n").data) =
      talk_instruction_with_choices
        (("talk(text-id, [(a, b), (c, d)])\n").data) ∧
    talk_instruction_with_choices
        (("talk(text-id, [(a, b), (c, d)])\n").data) =
      some ([], Instruction.Talk "text-id" [("a", "b"), ("c", "d")]) := by
  constructor
  · rw [List.append_assoc]
    rw [show ∀ r, talk_instruction_with_choices (("talk(text-id,").data ++ r)
        = talkChoicesTail "text-id" r from fun r => rfl]
    rw [show talk_instruction_with_choices
          (("talk(text-id, [(a, b), (c, d)])\n").data)
        = talkChoicesTail "text-id" ((" [(a, b), (c, d)])\n").data)
        from rfl]
    unfold talkChoicesTail
    rw [show array_choices (w ++ ("[(a, b), (c, d)])\n").data)
        = array_choices ((" [(a, b), (c, d)])\n").data) from by
      unfold array_choices
      rw [show sp (w ++ ("[(a, b), (c, d)])\n").data)
          = sp (("[(a, b), (c, d)])\n").data) from sp_append_ws hw _]
      rw [show sp ((" [(a, b), (c, d)])\n").data)
          = sp (("[(a, b), (c, d)])\n").data) from rfl]]
  · decide

/-- C5 witness: the spec's two-line example, with the choice array on its own
line after the newline and five spaces of indentation. -/
theorem spec_c5_witness :
    (∀ c ∈ ("\n     ").data, isSpChar c = true) ∧
    (talk_instruction_with_choices
        ((("talk(text-id,").data ++ ("\n     ").data)
          ++ ("[(a, b), (c, d)])\n").data) =
      talk_instruction_with_choices
        (("talk(text-id, [(a, b), (c, d)])\n").data)) ∧
    talk_instruction_with_choices
        (("talk(text-id, [(a, b), (c, d)])\n").data) =
      some ([], Instruction.Talk "text-id" [("a", "b"), ("c", "d")]) := by
  have h := spec_c5_multiline (("\n     ").data) (by decide)
  exact ⟨by decide, h.1, h.2⟩

/-- C6: a compiled section's instruction list is exactly the sequence of
instructions recognized consecutively after the section header, in source
order (`many0!` appends each parsed instruction in sequence and never
reorders, drops or duplicates one). -/
theorem spec_c6_order (s r : List Char) (n : String) (il : List Instruction)
    (h : section_p s = some (r, (n, il))) :
    ∃ s1, section_start s = some (s1, n) ∧ InstrSeq s1 r il :=
  (section_inv h).2

/-- C6 witness: a two-instruction section, whose compiled list arises from
the sequential parse. -/
theorem spec_c6_witness :
    section_p (("--- a\njump(x)\ntalk(t)\n").data) =
      some ([], ("a", [Instruction.Jump "x", Instruction.Talk "t" []])) ∧
    ∃ s1,
      section_start (("--- a\njump(x)\ntalk(t)\n").data) = some (s1, "a") ∧
      InstrSeq s1 [] [Instruction.Jump "x", Instruction.Talk "t" []] :=
  ⟨by decide,
    spec_c6_order (("--- a\njump(x)\ntalk(t)\n").data) [] "a"
      [Instruction.Jump "x", Instruction.Talk "t" []] (by decide)⟩

/-- C9: the instruction grammar's result is unchanged by any permutation of
its eight alternatives that keeps talk-with-choices attempted before plain
talk (in fact all the alternatives are pairwise disjoint). -/
theorem spec_c9_alt_order
    (l : List (List Char → Option (List Char × Instruction)))
    (hperm : instrAlts.Perm l) (hbt : ChoicesBeforeTalk l) (s : List Char) :
    altList l s = instruction s :=
  (altList_perm hperm alts_pairwise s).symm

/-- C9 witness: trying jump_if before jump — a permutation of the
alternatives keeping choices before talk — parses a `jump_if` line
identically. -/
theorem spec_c9_witness :
    instrAlts.Perm instrAltsSwapped ∧ ChoicesBeforeTalk instrAltsSwapped ∧
    altList instrAltsSwapped (("jump_if(has-key, has_item(key))\n").data) =
      instruction (("jump_if(has-key, has_item(key))\n").data) := by
  have hperm : instrAlts.Perm instrAltsSwapped :=
    List.Perm.swap jump_if_instruction jump_instruction
      [talk_instruction_with_choices, talk_instruction, gset_instruction,
       receive_money_instruction, remove_item_instruction,
       special_instruction]
  have hbt : ChoicesBeforeTalk instrAltsSwapped :=
    ⟨2, 3, by decide, by decide, by decide, rfl, rfl⟩
  exact ⟨hperm, hbt,
    spec_c9_alt_order instrAltsSwapped hperm hbt
      (("jump_if(has-key, has_item(key))\n").data)⟩

theorem line_ending_some {s r : List Char} (h : line_ending s = some r) :
    s = '\n' :: r ∨ s = '\r' :: '\n' :: r := by
  unfold line_ending at h
  split at h
  · rename_i r2
    left
    rw [Option.some_inj.mp h]
  · rename_i r2
    right
    rw [Option.some_inj.mp h]
  · cases h

theorem mem_takeWhile_char {p : Char → Bool} :
    ∀ {l : List Char} {a : Char}, a ∈ l.takeWhile p → p a = true := by
  intro l
  induction l with
  | nil => intro a ha; simp at ha
  | cons b t ih =>
    intro a ha
    rw [List.takeWhile_cons] at ha
    by_cases hb : p b
    · rw [if_pos hb] at ha
      rcases List.mem_cons.mp ha with rfl | ha2
      · exact hb
      · exact ih ha2
    · rw [if_neg hb] at ha
      simp at ha

/-- C4: a `special(...)` instruction whose argument symbol is not in the
closed enumeration fails at the symbol-to-enum conversion — the special arm
yields no instruction — and compiling a script containing such an
instruction fails with a ScriptParseError. -/
theorem spec_c4_unknown_special (w : List Char) (hne : w ≠ [])
    (hw : ∀ c ∈ w, isSymChar c = true)
    (hf : specialFromStr (String.mk w) = none) :
    special_instruction ((("special(").data ++ w) ++ (")\n").data) = none ∧
    ∃ d,
      parse (String.mk ((("--- s\nspecial(").data ++ w) ++ (")\n").data)) =
        Except.error (PakCompileError.ScriptParseError d) := by
  obtain ⟨c, w2, rfl⟩ : ∃ c w2, w = c :: w2 := by
    cases w with
    | nil => exact absurd rfl hne
    | cons a t => exact ⟨a, t, rfl⟩
  have hc : isSymChar c = true := hw c (List.mem_cons_self c w2)
  have hcs : isSpChar c = false := symChar_not_sp hc
  have harm : special_instruction
      ((("special(").data ++ (c :: w2)) ++ (")\n").data) = none := by
    rw [List.append_assoc]
    rw [show ∀ r, special_instruction (("special(").data ++ r)
        = specialAfterParen r from fun r => rfl]
    unfold specialAfterParen
    rw [show (c :: w2) ++ ((")\n").data)
        = c :: (w2 ++ ((")\n").data)) from rfl]
    rw [sp_cons_of_false hcs]
    rw [show c :: (w2 ++ ((")\n").data))
        = (c :: w2) ++ (')' :: (("\n").data)) from by simp]
    rw [symbol_on_token hne hw (by decide) _]
    dsimp only
    rw [sp_cons_of_false (by decide : isSpChar ')' = false)]
    rw [show tag ((")").data) (')' :: (("\n").data))
        = some (("\n").data) from rfl]
    dsimp only
    rw [hf]
  have hR : ((("special(").data ++ (c :: w2)) ++ ((")\n").data))
      = 's' :: ((("pecial(").data ++ (c :: w2)) ++ ((")\n").data)) := by
    rw [show ("special(").data = 's' :: ("pecial(").data from rfl]
    simp
  have hinstr : instruction
      ((("special(").data ++ (c :: w2)) ++ ((")\n").data)) = none := by
    rw [hR]
    rw [instruction_head_s (by decide) (by decide) (by decide) (by decide)
      (by decide)]
    rw [← hR]
    exact harm
  have hsec : section_p
      (("--- s\n").data ++ ((("special(").data ++ (c :: w2)) ++ ((")\n").data)))
      = some (((("special(").data ++ (c :: w2)) ++ ((")\n").data)),
          ("s", [])) := by
    unfold section_p
    rw [show section_start
        (("--- s\n").data
          ++ ((("special(").data ++ (c :: w2)) ++ ((")\n").data)))
        = some (((("special(").data ++ (c :: w2)) ++ ((")\n").data)), "s")
        from rfl]
    dsimp only
    rw [many0_of_fail hinstr]
  have hsecR : section_p
      ((("special(").data ++ (c :: w2)) ++ ((")\n").data)) = none := by
    rw [hR]
    exact section_p_fail_head (by decide)
  have hfold := fold_sections_leftover hsec hsecR
  refine ⟨harm, parseErrorDescription, ?_⟩
  have hmk : ((("--- s\nspecial(").data ++ (c :: w2)) ++ ((")\n").data))
      = ("--- s\n").data
          ++ ((("special(").data ++ (c :: w2)) ++ ((")\n").data)) := by
    rw [show ("--- s\nspecial(").data
        = ("--- s\n").data ++ ("special(").data from rfl]
    simp
  rw [show String.mk ((("--- s\nspecial(").data ++ (c :: w2))
        ++ ((")\n").data))
      = String.mk (("--- s\n").data
          ++ ((("special(").data ++ (c :: w2)) ++ ((")\n").data)))
      from by rw [hmk]]
  exact parse_err_of_fold hfold (by rw [hR]; simp)

/-- C4 witness: instantiated at the unknown symbol `frobnicate`. -/
theorem spec_c4_witness :
    (("frobnicate").data ≠ [] ∧
      specialFromStr (String.mk (("frobnicate").data)) = none) ∧
    special_instruction
        ((("special(").data ++ ("frobnicate").data) ++ (")\n").data) =
      none ∧
    ∃ d,
      parse (String.mk ((("--- s\nspecial(").data ++ ("frobnicate").data)
          ++ (")\n").data)) =
        Except.error (PakCompileError.ScriptParseError d) :=
  ⟨⟨by decide, by decide⟩,
    spec_c4_unknown_special (("frobnicate").data) (by decide) (by decide)
      (by decide)⟩

/-- C10: `end_line` succeeds exactly when optional horizontal whitespace is
followed by one line terminator (and fails otherwise); no instruction and no
section header is ever recognized in input without a line terminator, and a
nonempty source without any line terminator fails compilation with a
ScriptParseError instead of yielding instructions. -/
theorem spec_c10_end_line :
    (∀ s r : List Char, end_line s = some r ↔
      ∃ h, (∀ c ∈ h, isHorizChar c = true) ∧
        (s = h ++ '\n' :: r ∨ s = h ++ '\r' :: '\n' :: r)) ∧
    (∀ s : List Char, '\n' ∉ s →
      instruction s = none ∧ section_start s = none) ∧
    (∀ s : List Char, '\n' ∉ s → s ≠ [] →
      ∃ d, parse (String.mk s) =
        Except.error (PakCompileError.ScriptParseError d)) := by
  have hb : ∀ s : List Char, '\n' ∉ s →
      instruction s = none ∧ section_start s = none := by
    intro s hnm
    constructor
    · cases hi : instruction s with
      | none => rfl
      | some p =>
        obtain ⟨r, i⟩ := p
        exact absurd (instruction_inv hi).2 hnm
    · cases hss : section_start s with
      | none => rfl
      | some p =>
        obtain ⟨r, n⟩ := p
        exact absurd (section_start_inv hss).2 hnm
  refine ⟨?_, hb, ?_⟩
  · intro s r
    constructor
    · intro h
      unfold end_line at h
      cases hsp : space s with
      | none =>
        rw [hsp] at h
        exact ⟨[], by simp, by simpa using line_ending_some h⟩
      | some r1 =>
        rw [hsp] at h
        unfold space at hsp
        split at hsp
        · cases hsp
        · have hr1 : r1 = s.dropWhile isHorizChar :=
            (Option.some_inj.mp hsp).symm
          refine ⟨s.takeWhile isHorizChar, ?_, ?_⟩
          · intro c hc
            exact mem_takeWhile_char hc
          · have hsplit :
                s.takeWhile isHorizChar ++ s.dropWhile isHorizChar = s :=
              List.takeWhile_append_dropWhile isHorizChar s
            rcases line_ending_some h with h2 | h2
            · left
              conv_lhs => rw [← hsplit]
              rw [← hr1, h2]
            · right
              conv_lhs => rw [← hsplit]
              rw [← hr1, h2]
    · rintro ⟨hws, hall, (rfl | rfl)⟩
      · unfold end_line space
        obtain ⟨ht, hd⟩ := takeWhile_append_stop hall
          (by decide : isHorizChar '\n' = false) r
        rw [ht, hd]
        cases hws with
        | nil => rfl
        | cons a t => rfl
      · unfold end_line space
        obtain ⟨ht, hd⟩ := takeWhile_append_stop hall
          (by decide : isHorizChar '\r' = false) ('\n' :: r)
        rw [ht, hd]
        cases hws with
        | nil => rfl
        | cons a t => rfl
  · intro s hnm hne
    have hsec : section_p s = none := by
      unfold section_p
      rw [(hb s hnm).2]
    exact ⟨parseErrorDescription,
      parse_err_of_fold (fold_sections_none hsec) hne⟩

/-- C10 witness: `jump(x)` without a trailing line terminator is not an
instruction, and as a source (after a header-free start) fails to compile. -/
theorem spec_c10_witness :
    ('\n' ∉ ("jump(x)").data ∧ ("jump(x)").data ≠ []) ∧
    (instruction (("jump(x)").data) = none ∧
      section_start (("jump(x)").data) = none) ∧
    ∃ d, parse (String.mk (("jump(x)").data)) =
      Except.error (PakCompileError.ScriptParseError d) := by
  have h1 : '\n' ∉ ("jump(x)").data := by decide
  have h2 : ("jump(x)").data ≠ [] := by decide
  exact ⟨⟨h1, h2⟩, spec_c10_end_line.2.1 (("jump(x)").data) h1,
    spec_c10_end_line.2.2 (("jump(x)").data) h1 h2⟩

end MakePak
